import Mathlib

/-!
# voice2md — verification of the ingestion ledger, watch loop and pipeline

Shallow embedding of the voice2md repository (`src/voice2md/*.py`) in Lean 4.

* `state.py` (`StateStore`, the sqlite ledger) is embedded as pure functions over a
  list of `FileRecord`s keyed by `sha256`; the `time.time()` reads become an explicit
  `now : Int` argument and SQL `NULL` becomes `Option`.
* `markdown.py` string manipulation is embedded character-for-character over `String`.
* `watcher.py` (`Watcher.run_once`) is embedded as a pure function that, besides its
  state, emits the trace of orchestrator invocations and tracker `forget` calls.
* `pipeline.py` (`process_audio_file`) is embedded over an explicit world (association
  list of file contents plus the ledger) and an environment providing the results of
  the external collaborators (transform step, annotation step, clock, content hasher).
-/

namespace Voice2md

/-! ## Association lists (Python `dict` / the filesystem as path ↦ contents) -/

/-- Lookup in an association list (`dict.get`); keys are unique. -/
def alistGet {β : Type} (k : String) : List (String × β) → Option β
  | [] => none
  | e :: rest => if e.1 == k then some e.2 else alistGet k rest

/-- Update/insert in an association list (`dict[k] = v`); a fresh key is appended. -/
def alistPut {β : Type} (k : String) (v : β) : List (String × β) → List (String × β)
  | [] => [(k, v)]
  | e :: rest => if e.1 == k then (k, v) :: rest else e :: alistPut k v rest

/-- Removal from an association list (`dict.pop(k, None)` / `unlink`). -/
def alistErase {β : Type} (k : String) (l : List (String × β)) : List (String × β) :=
  l.filter (fun e => e.1 != k)

/-! ## The ledger (`state.py`) -/

/-- One row of the `processed_files` table (`FileRecord` in `state.py`).
Timestamps are modelled as `Int`; SQL `NULL` as `none`. -/
structure FileRecord where
  sha256 : String
  status : String
  started_at : Option Int
  processed_at : Option Int
  source_path : Option String
  source_mtime_ns : Option Int
  source_size : Option Int
  archive_path : Option String
  topic_file : Option String
  error : Option String
  codex_status : Option String
deriving Repr, DecidableEq

/-- The `processed_files` table: `sha256` is the primary key, so lookups find the
unique row with that key. -/
abbrev Store := List FileRecord

/-- `StateStore.get`: point read by primary key. -/
def get (s : Store) (sha : String) : Option FileRecord :=
  s.find? (fun r => r.sha256 == sha)

/-- `StateStore.is_processed`. -/
def is_processed (s : Store) (sha : String) : Bool :=
  match get s sha with
  | some r => r.status == "processed"
  | none => false

/-- Apply `f` to the (unique) row with key `sha` — the `ON CONFLICT … DO UPDATE` arm. -/
def upd (sha : String) (f : FileRecord → FileRecord) (s : Store) : Store :=
  s.map fun r => if r.sha256 == sha then f r else r

/-- The row inserted by `mark_in_progress` when no row with this key exists:
columns absent from the `INSERT` column list are `NULL`. -/
def freshInProgress (now : Int) (sha source_path : String)
    (mtime size : Option Int) : FileRecord :=
  { sha256 := sha, status := "in_progress", started_at := some now, processed_at := none,
    source_path := some source_path, source_mtime_ns := mtime, source_size := size,
    archive_path := none, topic_file := none, error := none, codex_status := none }

/-- `StateStore.mark_in_progress`: with `force` the upsert overwrites
`status`, `started_at`, the source fields and clears `error` (keeping every other
column); without `force` the insert is `ON CONFLICT(sha256) DO NOTHING`.
The Python method returns `None`: there is no success indicator. -/
def mark_in_progress (now : Int) (sha source_path : String)
    (mtime size : Option Int) (force : Bool) (s : Store) : Store :=
  match get s sha with
  | none => freshInProgress now sha source_path mtime size :: s
  | some _ =>
    if force then
      upd sha (fun r =>
        { r with status := "in_progress", started_at := some now,
                 source_path := some source_path, source_mtime_ns := mtime,
                 source_size := size, error := none }) s
    else s

/-- SQL `COALESCE(a, b)`. -/
def coalesce {α : Type} (a b : Option α) : Option α :=
  match a with
  | some x => some x
  | none => b

/-- `StateStore.mark_processed`: upsert to `processed`; `source_path`,
`source_mtime_ns` and `source_size` are merged with `COALESCE(excluded.…, …)`,
while `archive_path`, `topic_file` and `codex_status` are overwritten with the
supplied (possibly `NULL`) values; `processed_at` is stamped and `error` cleared.
On the insert arm `started_at` is `NULL`; on the update arm it is left unchanged. -/
def mark_processed (now : Int) (sha : String)
    (archive_path topic_file codex_status : Option String)
    (source_path : Option String) (source_mtime_ns source_size : Option Int)
    (s : Store) : Store :=
  match get s sha with
  | none =>
    { sha256 := sha, status := "processed", started_at := none, processed_at := some now,
      source_path := source_path, source_mtime_ns := source_mtime_ns,
      source_size := source_size, archive_path := archive_path, topic_file := topic_file,
      error := none, codex_status := codex_status } :: s
  | some _ =>
    upd sha (fun r =>
      { r with status := "processed", processed_at := some now,
               source_path := coalesce source_path r.source_path,
               source_mtime_ns := coalesce source_mtime_ns r.source_mtime_ns,
               source_size := coalesce source_size r.source_size,
               archive_path := archive_path, topic_file := topic_file,
               codex_status := codex_status, error := none }) s

/-- `StateStore.mark_failed`: upsert to `failed`, stamping `processed_at` and the
error; the update arm keeps every other column. -/
def mark_failed (now : Int) (sha error : String) (s : Store) : Store :=
  match get s sha with
  | none =>
    { sha256 := sha, status := "failed", started_at := none, processed_at := some now,
      source_path := none, source_mtime_ns := none, source_size := none,
      archive_path := none, topic_file := none, error := some error,
      codex_status := none } :: s
  | some _ =>
    upd sha (fun r =>
      { r with status := "failed", processed_at := some now, error := some error }) s

/-- `StateStore.allow_retry_in_progress` (the spec's `lease_expired`). -/
def allow_retry_in_progress (now : Int) (s : Store) (sha : String)
    (ttl_seconds : Int) : Bool :=
  match get s sha with
  | none => true
  | some r =>
    if r.status == "processed" then false
    else if r.status != "in_progress" then true
    else
      match r.started_at with
      | none => true
      | some t => now - t > ttl_seconds

/-- `ORDER BY processed_at DESC LIMIT 1` over the `processed` rows of a source path:
a row with a strictly later `processed_at` wins; `NULL` sorts last in a SQLite
descending order, and among ties the first row scanned is kept. -/
def descBetter (r b : FileRecord) : Bool :=
  match r.processed_at, b.processed_at with
  | some x, some y => x > y
  | some _, none => true
  | none, _ => false

/-- The row `StateStore.is_source_processed` reads: latest `processed` row for `p`. -/
def latestProcessedFor (s : Store) (p : String) : Option FileRecord :=
  (s.filter fun r => r.source_path == some p && r.status == "processed").foldl
    (fun best r =>
      match best with
      | none => some r
      | some b => if descBetter r b then some r else some b)
    none

/-- `StateStore.is_source_processed`: `False` with no `processed` row for the path;
`True` when the stored fingerprint is partly `NULL`, or the supplied one is; else
an equality comparison of both fingerprints. -/
def is_source_processed (s : Store) (p : String) (mt sz : Option Int) : Bool :=
  match latestProcessedFor s p with
  | none => false
  | some row =>
    match row.source_mtime_ns, row.source_size with
    | some m, some n =>
      match mt, sz with
      | some m2, some n2 => m == m2 && n == n2
      | _, _ => true
    | _, _ => true

/-- `StateStore.processed_source_snapshots`: for every source path of a `processed`
row, the fingerprint of the row with the latest `processed_at` (`NULL` counted
as `0.0`; on a tie the later row in table order wins, as the Python `>=` does). -/
def processed_source_snapshots (s : Store) : List (String × (Option Int × Option Int)) :=
  let latest := s.foldl
    (fun (acc : List (String × (Int × Option Int × Option Int))) r =>
      if r.status == "processed" then
        match r.source_path with
        | none => acc
        | some p =>
          if p == "" then acc
          else
            let t : Int := (r.processed_at).getD 0
            match alistGet p acc with
            | none => alistPut p (t, r.source_mtime_ns, r.source_size) acc
            | some prev =>
              if t ≥ prev.1 then alistPut p (t, r.source_mtime_ns, r.source_size) acc
              else acc
      else acc)
    []
  latest.map (fun e => (e.1, (e.2.2.1, e.2.2.2)))

/-- Ledger states reachable from the empty store by any sequence of
`mark_in_progress`, `mark_processed` and `mark_failed` calls. -/
inductive Reachable : Store → Prop
  | empty : Reachable []
  | in_progress (now : Int) (sha source_path : String) (mtime size : Option Int)
      (force : Bool) {s : Store} :
      Reachable s → Reachable (mark_in_progress now sha source_path mtime size force s)
  | processed (now : Int) (sha : String)
      (archive_path topic_file codex_status : Option String)
      (source_path : Option String) (source_mtime_ns source_size : Option Int)
      {s : Store} :
      Reachable s →
      Reachable (mark_processed now sha archive_path topic_file codex_status
        source_path source_mtime_ns source_size s)
  | failed (now : Int) (sha error : String) {s : Store} :
      Reachable s → Reachable (mark_failed now sha error s)

/-! ## Ledger lemmas -/

theorem get_upd (sha : String) (f : FileRecord → FileRecord)
    (hf : ∀ r, (f r).sha256 = r.sha256) (s : Store) :
    get (upd sha f s) sha = (get s sha).map f := by
  induction s with
  | nil => rfl
  | cons r rest ih =>
    unfold get upd at ih ⊢
    simp only [List.map_cons, List.find?]
    cases hb : (r.sha256 == sha) with
    | false =>
      simp only [Bool.false_eq_true, if_false, hb]
      exact ih
    | true =>
      have h2 : ((f r).sha256 == sha) = true := by rw [hf r]; exact hb
      simp [h2]

theorem get_cons_self (r : FileRecord) (s : Store) :
    get (r :: s) r.sha256 = some r := by
  simp [get, List.find?]

/-! ## C1 — `mark_processed` merge semantics

The spec claims upsert-merge semantics for every field ("Fields passed as
null/absent leave the previous stored value unchanged"), but in `state.py`
only `source_path`, `source_mtime_ns` and `source_size` go through `COALESCE`;
`archive_path`, `topic_file` and `codex_status` are written from `excluded.…`
unconditionally, so a call passing `NULL` for them erases the stored values. -/

def c1rec : FileRecord :=
  { sha256 := "a", status := "processed", started_at := none, processed_at := some 1,
    source_path := some "/inbox/a.m4a", source_mtime_ns := some 2, source_size := some 3,
    archive_path := some "/arch/2026/01/a.m4a", topic_file := some "/topics/Ideas.md",
    error := none, codex_status := some "ok" }

def c1store : Store := [c1rec]

/-- C1, counterexample: the ledger stores `archive_ref = /arch/2026/01/a.m4a` and
`destination_ref = /topics/Ideas.md`; a `mark_processed` call that supplies only
`codex_status` (with `NULL` `archive_path` and `topic_file`) erases both stored
values, contradicting "a call that supplies only annotation_status … does not
erase the stored destination_ref or archive_ref". -/
theorem c1_counterexample :
    (get c1store "a").map (fun r => (r.archive_path, r.topic_file)) =
      some (some "/arch/2026/01/a.m4a", some "/topics/Ideas.md") ∧
    (get (mark_processed 5 "a" none none (some "ok") none none none c1store) "a").map
      (fun r => (r.archive_path, r.topic_file)) = some (none, none) := by
  constructor <;> decide

/-- C1, amended: for an existing row, `mark_processed` leaves `source_path`,
`source_mtime_ns` and `source_size` unchanged when they are passed as null
(`COALESCE` merge), but always overwrites `archive_path`, `topic_file` and
`codex_status` with the supplied values — null supplied erases the stored value. -/
theorem c1_merge_semantics (now : Int) (sha : String)
    (ap tf cs sp : Option String) (mt sz : Option Int) (s : Store) (r : FileRecord)
    (h : get s sha = some r) :
    get (mark_processed now sha ap tf cs sp mt sz s) sha =
      some { r with status := "processed", processed_at := some now,
                    source_path := coalesce sp r.source_path,
                    source_mtime_ns := coalesce mt r.source_mtime_ns,
                    source_size := coalesce sz r.source_size,
                    archive_path := ap, topic_file := tf, codex_status := cs,
                    error := none } := by
  unfold mark_processed
  rw [h]
  dsimp only
  rw [get_upd, h]
  · rfl
  · exact fun r => rfl

/-- C1 witness: `c1_merge_semantics` applied to the concrete `c1store`. -/
theorem c1_merge_semantics_witness :
    get (mark_processed 5 "a" none none (some "ok") (some "/new") none none c1store) "a" =
      some { c1rec with status := "processed", processed_at := some 5,
                        source_path := coalesce (some "/new") c1rec.source_path,
                        source_mtime_ns := coalesce none c1rec.source_mtime_ns,
                        source_size := coalesce none c1rec.source_size,
                        archive_path := none, topic_file := none,
                        codex_status := some "ok", error := none } :=
  c1_merge_semantics 5 "a" none none (some "ok") (some "/new") none none c1store c1rec
    (by decide)

/-! ## C2 — `mark_in_progress` without `force`

The spec's `acquire_lease` is claimed to take over `failed` entries and expired
leases and to report success/failure. `StateStore.mark_in_progress` returns
`None`, and with `force=False` its insert is `ON CONFLICT DO NOTHING`: any
existing row — `failed`, `processed`, or `in_progress` with an arbitrarily old
lease — is left exactly as it was. Lease arbitration is instead done by the
caller (`pipeline.py`) via `is_processed` and `allow_retry_in_progress`,
after which it calls `mark_in_progress` with `force=True`. -/

def c2store : Store := mark_failed 0 "a" "boom" []

/-- C2, counterexample: with a `failed` entry for "a" and `force=false`,
`mark_in_progress` leaves the store unchanged — the entry is still `failed`
with no fresh `started_at`, contradicting "installs a new/overwritten
in_progress entry with a fresh lease_started_at and reports success". -/
theorem c2_counterexample :
    mark_in_progress 10 "a" "/p" none none false c2store = c2store ∧
    (get (mark_in_progress 10 "a" "/p" none none false c2store) "a").map
      (fun r => (r.status, r.started_at)) = some ("failed", none) := by
  constructor <;> decide

/-- C2, amended: `mark_in_progress` inserts a fresh `in_progress` row only when
no row exists; with `force=false` it leaves any existing row (whatever its
status or lease age) unchanged; with `force=true` it unconditionally rewrites
the row to `in_progress` with a fresh `started_at`, new source fields and a
cleared error. It returns nothing: no success indicator. -/
theorem c2_lease_semantics (now : Int) (sha p : String) (mt sz : Option Int) (s : Store) :
    (get s sha = none →
      ∀ force, mark_in_progress now sha p mt sz force s =
        freshInProgress now sha p mt sz :: s) ∧
    (∀ r, get s sha = some r →
      mark_in_progress now sha p mt sz false s = s) ∧
    (∀ r, get s sha = some r →
      get (mark_in_progress now sha p mt sz true s) sha =
        some { r with status := "in_progress", started_at := some now,
                      source_path := some p, source_mtime_ns := mt,
                      source_size := sz, error := none }) := by
  refine ⟨fun h _ => ?_, fun r h => ?_, fun r h => ?_⟩
  · unfold mark_in_progress; rw [h]
  · unfold mark_in_progress; rw [h]; rfl
  · unfold mark_in_progress
    rw [h]
    dsimp only
    rw [if_pos rfl, get_upd, h]
    · rfl
    · exact fun r => rfl

/-- C2 witness: `c2_lease_semantics` on the empty store and on `c2store`. -/
def c2rec : FileRecord :=
  { sha256 := "a", status := "failed", started_at := none, processed_at := some 0,
    source_path := none, source_mtime_ns := none, source_size := none,
    archive_path := none, topic_file := none, error := some "boom",
    codex_status := none }

theorem c2_lease_semantics_witness :
    mark_in_progress 3 "a" "/p" none none false [] =
      [freshInProgress 3 "a" "/p" none none] ∧
    mark_in_progress 10 "a" "/p" none none false c2store = c2store :=
  ⟨(c2_lease_semantics 3 "a" "/p" none none []).1 (by decide) false,
   (c2_lease_semantics 10 "a" "/p" none none c2store).2.1 c2rec (by decide)⟩

/-! ## C3 — `allow_retry_in_progress`

The spec says `lease_expired` is "true when no entry exists, when status is not
`in_progress`, or when now - lease_started_at > ttl_seconds". The code returns
`false` for a `processed` entry (and the repo's own test asserts
`allow_retry_in_progress(sha, ttl_seconds=0)` is false after `mark_processed`),
so "status is not in_progress (including processed …)" is wrong. -/

def c3store : Store := mark_processed 0 "a" none none none none none none []

/-- C3, counterexample: the entry for "a" exists with status `processed` — not
`in_progress` — so the claim demands `true`; the code returns `false`. -/
theorem c3_counterexample :
    (get c3store "a").map FileRecord.status = some "processed" ∧
    allow_retry_in_progress 100 c3store "a" 3600 = false := by
  constructor <;> decide

/-- C3, amended: `allow_retry_in_progress` returns true exactly when no entry
exists, or the entry's status is neither `processed` nor `in_progress`, or it
is `in_progress` with no `started_at` or with `now - started_at > ttl`; for a
`processed` entry it returns false. -/
theorem c3_lease_expiry (now ttl : Int) (s : Store) (sha : String) :
    allow_retry_in_progress now s sha ttl = true ↔
      (get s sha = none ∨
       ∃ r, get s sha = some r ∧ r.status ≠ "processed" ∧
         (r.status ≠ "in_progress" ∨ r.started_at = none ∨
          ∃ t, r.started_at = some t ∧ now - t > ttl)) := by
  cases hr : get s sha with
  | none =>
    unfold allow_retry_in_progress
    rw [hr]
    simp
  | some r =>
    unfold allow_retry_in_progress
    rw [hr]
    dsimp only
    constructor
    · intro hL
      by_cases hp : r.status = "processed"
      · rw [if_pos (by simp [hp])] at hL
        exact absurd hL (by decide)
      · rw [if_neg (by simp [hp])] at hL
        by_cases hi : r.status = "in_progress"
        · rw [if_neg (by simp [hi])] at hL
          cases hs : r.started_at with
          | none => exact Or.inr ⟨r, rfl, hp, Or.inr (Or.inl hs)⟩
          | some t =>
            rw [hs] at hL
            exact Or.inr ⟨r, rfl, hp, Or.inr (Or.inr ⟨t, hs, by simpa using hL⟩)⟩
        · exact Or.inr ⟨r, rfl, hp, Or.inl hi⟩
    · rintro (h | ⟨r', hr', hnp, hcase⟩)
      · cases h
      · injection hr' with he
        subst he
        rw [if_neg (by simp [hnp])]
        rcases hcase with hi | hs | ⟨t, ht, hgt⟩
        · rw [if_pos (by simp [hi])]
        · by_cases hi : r.status = "in_progress"
          · rw [if_neg (by simp [hi]), hs]
          · rw [if_pos (by simp [hi])]
        · by_cases hi : r.status = "in_progress"
          · rw [if_neg (by simp [hi]), ht]
            simpa using hgt
          · rw [if_pos (by simp [hi])]

/-! ## C4 — `completed_at` vs terminal status

Direction that holds: every `processed`/`failed` row of a reachable store has a
non-null `processed_at`. Direction that fails: `mark_in_progress` with `force`
does not clear `processed_at`, so force-retaking a previously terminal entry
leaves a stale `processed_at` on an `in_progress` row. -/

def c4store : Store := mark_in_progress 1 "a" "/p" none none true (mark_failed 0 "a" "e" [])

/-- C4, counterexample: after `mark_failed` at time 0 and a forced
`mark_in_progress` at time 1 (the retry path), the entry is `in_progress` yet
still carries `completed_at = 0` — refuting "completed_at is non-null if and
only if status is processed or failed" on a reachable ledger state. -/
theorem c4_counterexample :
    Reachable c4store ∧
    (get c4store "a").map (fun r => (r.status, r.processed_at)) =
      some ("in_progress", some 0) := by
  constructor
  · exact Reachable.in_progress 1 "a" "/p" none none true
      (Reachable.failed 0 "a" "e" Reachable.empty)
  · decide

/-- C4, amended: in every reachable ledger state, a row whose status is
`processed` or `failed` has a non-null `processed_at`; the converse direction
of the spec's invariant fails (see the counterexample: a forced lease
re-acquisition leaves the stale `processed_at` on an `in_progress` row). -/
theorem c4_terminal_has_completed_at (s : Store) (h : Reachable s) (r : FileRecord)
    (hr : r ∈ s) (hst : r.status = "processed" ∨ r.status = "failed") :
    r.processed_at ≠ none := by
  induction h with
  | empty => cases hr
  | in_progress now sha sp mt sz force hre ih =>
    unfold mark_in_progress at hr
    rcases hg : get _ sha with _ | r0
    · rw [hg] at hr
      rcases List.mem_cons.1 hr with h1 | h1
      · subst h1; rcases hst with h | h <;> simp [freshInProgress] at h
      · exact ih h1
    · rw [hg] at hr
      by_cases hf : force
      · rw [if_pos hf] at hr
        unfold upd at hr
        rcases List.mem_map.1 hr with ⟨r1, hr1, he⟩
        by_cases hsha : r1.sha256 == sha
        · rw [if_pos hsha] at he
          subst he
          rcases hst with h | h <;> simp at h
        · rw [if_neg hsha] at he
          subst he
          exact ih hr1
      · rw [if_neg hf] at hr
        exact ih hr
  | processed now sha ap tf cs sp mt sz hre ih =>
    unfold mark_processed at hr
    rcases hg : get _ sha with _ | r0
    · rw [hg] at hr
      rcases List.mem_cons.1 hr with h1 | h1
      · subst h1; simp
      · exact ih h1
    · rw [hg] at hr
      unfold upd at hr
      rcases List.mem_map.1 hr with ⟨r1, hr1, he⟩
      by_cases hsha : r1.sha256 == sha
      · rw [if_pos hsha] at he; subst he; simp
      · rw [if_neg hsha] at he; subst he; exact ih hr1
  | failed now sha err hre ih =>
    unfold mark_failed at hr
    rcases hg : get _ sha with _ | r0
    · rw [hg] at hr
      rcases List.mem_cons.1 hr with h1 | h1
      · subst h1; simp
      · exact ih h1
    · rw [hg] at hr
      unfold upd at hr
      rcases List.mem_map.1 hr with ⟨r1, hr1, he⟩
      by_cases hsha : r1.sha256 == sha
      · rw [if_pos hsha] at he; subst he; simp
      · rw [if_neg hsha] at he; subst he; exact ih hr1

/-- C4 witness: the invariant evaluated on the reachable store `[mark_failed 0 "a" "e"]`. -/
theorem c4_terminal_has_completed_at_witness :
    FileRecord.processed_at
      { sha256 := "a", status := "failed", started_at := none, processed_at := some 0,
        source_path := none, source_mtime_ns := none, source_size := none,
        archive_path := none, topic_file := none, error := some "e",
        codex_status := none } ≠ none :=
  c4_terminal_has_completed_at (mark_failed 0 "a" "e" [])
    (Reachable.failed 0 "a" "e" Reachable.empty) _ (by decide) (by decide)

theorem alistGet_put_ne {β : Type} (k q : String) (v : β) (l : List (String × β))
    (h : k ≠ q) : alistGet k (alistPut q v l) = alistGet k l := by
  have hqk : (q == k) = false := by
    simpa using fun he => h he.symm
  induction l with
  | nil => simp [alistGet, alistPut, hqk]
  | cons e rest ih =>
    unfold alistPut
    cases hb : (e.1 == q) with
    | true =>
      have he : e.1 = q := by simpa using hb
      simp [alistGet, hqk, he]
    | false =>
      rw [if_neg (by simp)]
      unfold alistGet
      rw [ih]

theorem alistGet_erase_ne {β : Type} (k q : String) (l : List (String × β))
    (h : k ≠ q) : alistGet k (alistErase q l) = alistGet k l := by
  induction l with
  | nil => rfl
  | cons e rest ih =>
    unfold alistErase at ih ⊢
    simp only [List.filter]
    cases hb : (e.1 != q) with
    | false =>
      have he : e.1 = q := by simpa using hb
      have h2 : (e.1 == k) = false := by
        rw [he]; simpa using fun he2 => h he2.symm
      dsimp only
      rw [ih]
      simp [alistGet, h2]
    | true =>
      dsimp only
      simp [alistGet, ih]

/-! ## The watch loop (`watcher.py`)

`Watcher.run_once` lists candidates, pre-filters them against the
`processed_source_snapshots` index, feeds the survivors to the stability
tracker, sorts the stable ones by `st_mtime` ascending (Python's stable
`list.sort`, embedded as `List.mergeSort`), and for each stable path invokes
the orchestrator inside `try`/`except`/`finally: forget(path)`.

The `StableFileTracker` itself (`voice2md/stable.py`) is not part of the
sources; its `observe` is kept opaque as an environment function and `forget`
calls are recorded as trace events. The orchestrator invocation is likewise an
environment outcome: `.error ()` an exception, `.ok true` a truthy outcome,
`.ok false` a `None` return. -/

/-- The fields of `os.stat_result` the watcher reads (`st_mtime` seconds as `Int`). -/
structure FileStat where
  mtime_ns : Int
  size : Int
  mtime : Int
deriving DecidableEq, Repr

/-- The watcher's `_processed_sources` dict: path ↦ (mtime_ns, size). -/
abbrev Snapshot := List (String × (Option Int × Option Int))

/-- Environment of one `run_once` cycle: `stat` (with `none` = `FileNotFoundError`),
the tracker's `observe`, and the per-path orchestrator outcome. -/
structure WatchEnv where
  stat : String → Option FileStat
  observe : List String → List String
  outcome : String → Except Unit Bool

/-- Observable events of a cycle: an orchestrator invocation and a tracker `forget`. -/
inductive WEvent where
  | invoke (p : String)
  | forget (p : String)
deriving DecidableEq, Repr

/-- One iteration of the pre-filter loop in `Watcher.run_once` (lines 77-93):
paths absent from the snapshot are kept; a vanished path is skipped; a stored
null fingerprint skips the path; an exact fingerprint match skips it; a
mismatch pops the snapshot entry and keeps the path. -/
def preFilterStep (stat : String → Option FileStat)
    (acc : List String × Snapshot) (p : String) : List String × Snapshot :=
  match alistGet p acc.2 with
  | none => (acc.1 ++ [p], acc.2)
  | some fp =>
    match stat p with
    | none => acc
    | some st =>
      match fp.1, fp.2 with
      | some mt, some sz =>
        if st.mtime_ns == mt && st.size == sz then acc
        else (acc.1 ++ [p], alistErase p acc.2)
      | _, _ => acc

/-- `_mtime_or_zero`. -/
def mtime_or_zero (stat : String → Option FileStat) (p : String) : Int :=
  match stat p with
  | some st => st.mtime
  | none => 0

/-- The sort key comparison used by `stable.sort(key=_mtime_or_zero)`. -/
def mtimeLe (stat : String → Option FileStat) (a b : String) : Bool :=
  decide (mtime_or_zero stat a ≤ mtime_or_zero stat b)

/-- The per-candidate loop of `run_once` (lines 107-125): invoke the
orchestrator, on a truthy outcome refresh the snapshot from a fresh stat, and
in `finally` call `forget` — the trace records the invocation and the forget. -/
def runLoop (env : WatchEnv) : List String → Snapshot → List WEvent × Snapshot
  | [], sn => ([], sn)
  | p :: rest, sn =>
    let sn2 :=
      match env.outcome p with
      | .ok true =>
        match env.stat p with
        | some st => alistPut p (some st.mtime_ns, some st.size) sn
        | none => sn
      | _ => sn
    let res := runLoop env rest sn2
    (WEvent.invoke p :: WEvent.forget p :: res.1, res.2)

/-- `Watcher.run_once`: pre-filter (only when the snapshot is non-empty), early
return on no candidates, observe, sort ascending by mtime, then the loop. -/
def run_once (env : WatchEnv) (candidates : List String) (snap : Snapshot) :
    List WEvent × Snapshot :=
  let fs := if snap.isEmpty then (candidates, snap)
            else candidates.foldl (preFilterStep env.stat) ([], snap)
  if fs.1.isEmpty then ([], fs.2)
  else
    let stable := env.observe fs.1
    let sorted := stable.mergeSort (mtimeLe env.stat)
    runLoop env sorted fs.2

theorem runLoop_trace (env : WatchEnv) (l : List String) (sn : Snapshot) :
    (runLoop env l sn).1 = l.flatMap (fun p => [WEvent.invoke p, WEvent.forget p]) := by
  induction l generalizing sn with
  | nil => rfl
  | cons p rest ih => simp [runLoop, ih]

theorem runLoop_snapshot_of_not_mem (env : WatchEnv) (l : List String)
    (sn : Snapshot) (p : String) (hp : p ∉ l) :
    alistGet p (runLoop env l sn).2 = alistGet p sn := by
  induction l generalizing sn with
  | nil => rfl
  | cons q rest ih =>
    have hq : p ≠ q := fun h => hp (h ▸ List.mem_cons_self q rest)
    have hrest : p ∉ rest := fun h => hp (List.mem_cons_of_mem q h)
    unfold runLoop
    dsimp only
    rw [ih _ hrest]
    cases env.outcome q with
    | error e => rfl
    | ok b =>
      cases b with
      | false => rfl
      | true =>
        cases env.stat q with
        | none => rfl
        | some st => exact alistGet_put_ne p q _ _ hq

/-! ## C9 — ordering and forget in one watch cycle -/

/-- C9: in one `run_once` cycle with a non-empty filtered candidate list, the
cycle's trace is exactly, for each stable path in ascending `st_mtime` order
(Python's stable sort, `mergeSort` by `mtime_or_zero`), an orchestrator
invocation immediately followed by a tracker `forget` — so `forget` is called
after every invocation regardless of the outcome (`env.outcome` is arbitrary:
exception, outcome, or `None`); the invocation order is pairwise ascending in
mtime and is a permutation of the stable set returned by the tracker. -/
theorem c9_sorted_order_and_forget (env : WatchEnv) (candidates : List String)
    (snap : Snapshot)
    (hne : (if snap.isEmpty then (candidates, snap)
            else candidates.foldl (preFilterStep env.stat) ([], snap)).1 ≠ []) :
    (run_once env candidates snap).1 =
      ((env.observe (if snap.isEmpty then (candidates, snap)
          else candidates.foldl (preFilterStep env.stat) ([], snap)).1).mergeSort
        (mtimeLe env.stat)).flatMap
        (fun p => [WEvent.invoke p, WEvent.forget p]) ∧
    List.Pairwise
      (fun a b => mtime_or_zero env.stat a ≤ mtime_or_zero env.stat b)
      ((env.observe (if snap.isEmpty then (candidates, snap)
          else candidates.foldl (preFilterStep env.stat) ([], snap)).1).mergeSort
        (mtimeLe env.stat)) ∧
    List.Perm
      ((env.observe (if snap.isEmpty then (candidates, snap)
          else candidates.foldl (preFilterStep env.stat) ([], snap)).1).mergeSort
        (mtimeLe env.stat))
      (env.observe (if snap.isEmpty then (candidates, snap)
          else candidates.foldl (preFilterStep env.stat) ([], snap)).1) := by
  refine ⟨?_, ?_, List.mergeSort_perm _ _⟩
  · unfold run_once
    rw [if_neg (by simpa using hne)]
    exact runLoop_trace env _ _
  · have h := @List.sorted_mergeSort _ (mtimeLe env.stat)
      (fun a b c h1 h2 => by
        simp only [mtimeLe, decide_eq_true_eq] at h1 h2 ⊢
        omega)
      (fun a b => by
        simp only [mtimeLe, Bool.or_eq_true, decide_eq_true_eq]
        omega)
      (env.observe (if snap.isEmpty then (candidates, snap)
          else candidates.foldl (preFilterStep env.stat) ([], snap)).1)
    exact h.imp (fun hab => by simpa [mtimeLe] using hab)

/-- A concrete watch environment: one file, identity tracker, an orchestrator
invocation that raises. -/
def c9env : WatchEnv :=
  { stat := fun _ => some { mtime_ns := 10, size := 20, mtime := 30 },
    observe := fun l => l,
    outcome := fun _ => Except.error () }

/-- C9 witness: a one-candidate cycle with an empty snapshot and an
orchestrator invocation that raises. -/
theorem c9_sorted_order_and_forget_witness :
    (run_once c9env ["/inbox/a.m4a"] []).1 =
      ((c9env.observe ["/inbox/a.m4a"]).mergeSort (mtimeLe c9env.stat)).flatMap
        (fun p => [WEvent.invoke p, WEvent.forget p]) ∧
    List.Pairwise
      (fun a b => mtime_or_zero c9env.stat a ≤ mtime_or_zero c9env.stat b)
      ((c9env.observe ["/inbox/a.m4a"]).mergeSort (mtimeLe c9env.stat)) ∧
    List.Perm ((c9env.observe ["/inbox/a.m4a"]).mergeSort (mtimeLe c9env.stat))
      (c9env.observe ["/inbox/a.m4a"]) :=
  c9_sorted_order_and_forget c9env ["/inbox/a.m4a"] [] (by decide)

/-! ## C10 — null fingerprints short-circuit the already-processed pre-filter -/

theorem preFilter_skips (stat : String → Option FileStat) (p : String)
    (fp : Option Int × Option Int) (hnull : fp.1 = none ∨ fp.2 = none)
    (candidates : List String) (acc : List String × Snapshot)
    (hacc : p ∉ acc.1 ∧ alistGet p acc.2 = some fp) :
    p ∉ (candidates.foldl (preFilterStep stat) acc).1 ∧
    alistGet p (candidates.foldl (preFilterStep stat) acc).2 = some fp := by
  induction candidates generalizing acc with
  | nil => exact hacc
  | cons q rest ih =>
    rw [List.foldl_cons]
    apply ih
    obtain ⟨h1, h2⟩ := hacc
    unfold preFilterStep
    cases hg : alistGet q acc.2 with
    | none =>
      dsimp only
      refine ⟨fun hmem => ?_, h2⟩
      rcases List.mem_append.1 hmem with hm | hm
      · exact h1 hm
      · have hpq : p = q := by simpa using hm
        rw [hpq, hg] at h2
        cases h2
    | some fq =>
      cases hst : stat q with
      | none => exact ⟨h1, h2⟩
      | some st =>
        dsimp only
        cases hfq1 : fq.1 with
        | none => exact ⟨h1, h2⟩
        | some mt =>
          cases hfq2 : fq.2 with
          | none => exact ⟨h1, h2⟩
          | some sz =>
            dsimp only
            by_cases hcond : (st.mtime_ns == mt && st.size == sz) = true
            · rw [if_pos hcond]; exact ⟨h1, h2⟩
            · rw [if_neg hcond]
              have hpq : p ≠ q := by
                intro he
                rw [he, hg] at h2
                injection h2 with hfe
                rw [hfe] at hfq1 hfq2
                rcases hnull with hn | hn
                · rw [hn] at hfq1; cases hfq1
                · rw [hn] at hfq2; cases hfq2
              refine ⟨fun hmem => ?_, ?_⟩
              · rcases List.mem_append.1 hmem with hm | hm
                · exact h1 hm
                · exact hpq (by simpa using hm)
              · rw [alistGet_erase_ne p q _ hpq]
                exact h2

/-- C10: (a) `is_source_processed` returns true whenever a `processed` row for
the path exists and the stored fingerprint (from the latest `processed` row) or
the supplied fingerprint has a null component — path identity alone decides;
(b) with a snapshot entry carrying a null fingerprint, `run_once` never hands
the path to the orchestrator in any cycle (no rehash, no invocation; the
tracker's `observe` is assumed to return a subset of its input, per the spec of
the Stability Tracker) and leaves that snapshot entry in place, so the path
stays skipped in every later cycle as well. -/
theorem c10_null_fingerprint_short_circuit :
    (∀ (s : Store) (p : String) (row : FileRecord) (mt sz : Option Int),
        latestProcessedFor s p = some row →
        row.source_mtime_ns = none ∨ row.source_size = none ∨ mt = none ∨ sz = none →
        is_source_processed s p mt sz = true) ∧
    (∀ (env : WatchEnv) (s : Store) (p : String) (fp : Option Int × Option Int)
        (candidates : List String),
        (∀ l q, q ∈ env.observe l → q ∈ l) →
        alistGet p (processed_source_snapshots s) = some fp →
        fp.1 = none ∨ fp.2 = none →
        WEvent.invoke p ∉ (run_once env candidates (processed_source_snapshots s)).1 ∧
        alistGet p (run_once env candidates (processed_source_snapshots s)).2 = some fp) := by
  constructor
  · intro s p row mt sz hrow hnull
    unfold is_source_processed
    rw [hrow]
    dsimp only
    cases hm : row.source_mtime_ns with
    | none => rfl
    | some m =>
      cases hn : row.source_size with
      | none => rfl
      | some n =>
        rcases hnull with h | h | h | h
        · rw [hm] at h; cases h
        · rw [hn] at h; cases h
        · rw [h]
        · rw [h]
          cases mt with
          | none => rfl
          | some m2 => rfl
  · intro env s p fp candidates hsub hsnap hnull
    have hne : (processed_source_snapshots s).isEmpty = false := by
      cases hs : processed_source_snapshots s with
      | nil => rw [hs] at hsnap; cases hsnap
      | cons e rest => rfl
    have hinv := preFilter_skips env.stat p fp hnull candidates
      ([], processed_source_snapshots s) ⟨List.not_mem_nil p, hsnap⟩
    obtain ⟨hnf, hsn⟩ := hinv
    unfold run_once
    dsimp only
    rw [if_neg (show ¬((processed_source_snapshots s).isEmpty = true) from by simp [hne])]
    by_cases hemp :
        (candidates.foldl (preFilterStep env.stat) ([], processed_source_snapshots s)).1.isEmpty
    · rw [if_pos hemp]
      exact ⟨List.not_mem_nil _, hsn⟩
    · rw [if_neg hemp]
      have hnstable : p ∉ env.observe
          (candidates.foldl (preFilterStep env.stat) ([], processed_source_snapshots s)).1 :=
        fun hmem => hnf (hsub _ _ hmem)
      have hnsorted : p ∉ (env.observe
          (candidates.foldl (preFilterStep env.stat) ([], processed_source_snapshots s)).1).mergeSort
          (mtimeLe env.stat) :=
        fun hmem => hnstable ((List.mergeSort_perm _ _).mem_iff.1 hmem)
      refine ⟨fun hmem => ?_, ?_⟩
      · rw [runLoop_trace] at hmem
        rcases List.mem_flatMap.1 hmem with ⟨q, hq, hin⟩
        have : p = q := by
          rcases List.mem_cons.1 hin with he | he
          · injection he
          · rcases List.mem_cons.1 he with he2 | he2
            · cases he2
            · cases he2
        exact hnsorted (this ▸ hq)
      · rw [runLoop_snapshot_of_not_mem env _ _ p hnsorted]
        exact hsn

def c10rec : FileRecord :=
  { sha256 := "abc", status := "processed", started_at := none, processed_at := some 5,
    source_path := some "/inbox/x.m4a", source_mtime_ns := none, source_size := some 7,
    archive_path := none, topic_file := some "/topics/T.md", error := none,
    codex_status := some "ok" }

def c10store : Store := [c10rec]

def c10wenv : WatchEnv :=
  { stat := fun _ => some { mtime_ns := 999, size := 1000, mtime := 1 },
    observe := fun l => l,
    outcome := fun _ => Except.ok true }

/-- C10 witness: a concrete ledger whose only `processed` row for
`/inbox/x.m4a` stores a null `source_mtime_ns`. -/
theorem c10_null_fingerprint_short_circuit_witness :
    is_source_processed c10store "/inbox/x.m4a" (some 1) (some 2) = true ∧
    (WEvent.invoke "/inbox/x.m4a" ∉
        (run_once c10wenv ["/inbox/x.m4a"] (processed_source_snapshots c10store)).1 ∧
      alistGet "/inbox/x.m4a"
          (run_once c10wenv ["/inbox/x.m4a"] (processed_source_snapshots c10store)).2 =
        some (none, some 7)) :=
  ⟨c10_null_fingerprint_short_circuit.1 c10store "/inbox/x.m4a" c10rec (some 1) (some 2)
      (by decide) (Or.inl rfl),
   c10_null_fingerprint_short_circuit.2 c10wenv c10store "/inbox/x.m4a" (none, some 7)
      ["/inbox/x.m4a"] (fun _ _ h => h) (by decide) (Or.inl rfl)⟩

/-! ## Markdown formatting (`markdown.py`) and Python string primitives

Python string methods are embedded character-for-character over `String.data`. -/

/-- Python's whitespace class (`str.strip` default / regex `\s`). -/
def isPyWs (c : Char) : Bool :=
  c == ' ' || c == '\t' || c == '\n' || c == '\r' || c == '\x0b' || c == '\x0c'

/-- Python `str.strip()`. -/
def pyStrip (s : String) : String :=
  String.mk (((s.data.dropWhile isPyWs).reverse.dropWhile isPyWs).reverse)

/-- Python `str.lstrip()`. -/
def pyLstrip (s : String) : String :=
  String.mk (s.data.dropWhile isPyWs)

/-- Drop trailing newlines of a character list. -/
def rstripL (l : List Char) : List Char :=
  (l.reverse.dropWhile (fun c => c == '\n')).reverse

/-- Python `str.rstrip("\n")`. -/
def rstripNl (s : String) : String :=
  String.mk (rstripL s.data)

/-- `text.replace("\r\n", "\n").replace("\r", "\n")`. -/
def fixNewlines : List Char → List Char
  | [] => []
  | '\r' :: '\n' :: rest => '\n' :: fixNewlines rest
  | '\r' :: rest => '\n' :: fixNewlines rest
  | c :: rest => c :: fixNewlines rest

/-- `re.sub(r"[ \t]+\n", "\n", text)`: drop spaces/tabs directly before a newline. -/
def stripWsBeforeNl (l : List Char) : List Char :=
  l.foldr
    (fun c acc =>
      if (c == ' ' || c == '\t') && acc.head? == some '\n' then acc else c :: acc)
    []

/-- `re.sub(r"\n{3,}", "\n\n", text)`: collapse runs of three or more newlines. -/
def collapseNl (l : List Char) : List Char :=
  l.foldr
    (fun c acc =>
      if c == '\n' && acc.take 2 == ['\n', '\n'] then acc else c :: acc)
    []

/-- `markdown._cleanup_transcript`. -/
def cleanup_transcript (s : String) : String :=
  pyStrip (String.mk (collapseNl (stripWsBeforeNl (fixNewlines s.data))))

/-- Helper for `collapseSlashes`: `inRun` says the previous character was a
slash, so further slashes of the same run emit nothing. -/
def collapseSlashesAux (inRun : Bool) : List Char → List Char
  | [] => []
  | c :: cs =>
    if c == '/' || c == '\\' then
      (if inRun then [] else ['-']) ++ collapseSlashesAux true cs
    else
      c :: collapseSlashesAux false cs

/-- `re.sub(r"[\\/]+", "-", topic)`: each maximal run of slashes becomes one dash. -/
def collapseSlashes (l : List Char) : List Char :=
  collapseSlashesAux false l

/-- Helper for `collapseWs`, as for `collapseSlashesAux`. -/
def collapseWsAux (inRun : Bool) : List Char → List Char
  | [] => []
  | c :: cs =>
    if isPyWs c then
      (if inRun then [] else [' ']) ++ collapseWsAux true cs
    else
      c :: collapseWsAux false cs

/-- `re.sub(r"\s+", " ", topic)`: each maximal whitespace run becomes one space. -/
def collapseWs (l : List Char) : List Char :=
  collapseWsAux false l

/-- The characters removed by `re.sub(r"[:*?\"<>|]", "", topic)`. -/
def isForbiddenTopicChar (c : Char) : Bool :=
  c == ':' || c == '*' || c == '?' || c == '"' || c == '<' || c == '>' || c == '|'

/-- `markdown.sanitize_topic`. -/
def sanitize_topic (topic fallback : String) : String :=
  let t1 := pyStrip topic
  let t2 := String.mk (collapseSlashes t1.data)
  let t3 := String.mk (t2.data.filter (fun c => !isForbiddenTopicChar c))
  let t4 := pyStrip (String.mk (collapseWs t3.data))
  if t4 == "" then fallback else t4

/-- `markdown.topic_file_path` (the `/` join of `pathlib`). -/
def topic_file_path (topics_dir topic : String) : String :=
  topics_dir ++ "/" ++ sanitize_topic topic "Untitled" ++ ".md"

/-- `markdown.voice_dump_marker`. -/
def voice_dump_marker (sha : String) : String :=
  "<!-- voice2md:sha256=" ++ sha ++ " -->"

/-- The text file system: path ↦ contents (a file's bytes as a `String`). -/
abbrev Files := List (String × String)

/-- Scan for an occurrence of `needle` starting at any position. -/
def hasSubstr (needle : List Char) : List Char → Bool
  | [] => needle.isEmpty
  | c :: rest => needle.isPrefixOf (c :: rest) || hasSubstr needle rest

/-- Python's `needle in hay` substring test. -/
def strContains (hay needle : String) : Bool :=
  hasSubstr needle.data hay.data

/-- `markdown.notebook_contains_sha256`: a missing file reads as `false`. -/
def notebook_contains_sha256 (files : Files) (topic_file sha : String) : Bool :=
  match alistGet topic_file files with
  | none => false
  | some text => strContains text (voice_dump_marker sha)

/-- `markdown.ensure_topic_file`: create with a `# title` header if absent;
returns whether it was created. -/
def ensure_topic_file (files : Files) (topic_file topic_title : String) :
    Bool × Files :=
  match alistGet topic_file files with
  | some _ => (false, files)
  | none => (true, alistPut topic_file ("# " ++ topic_title ++ "\n\n") files)

/-- `markdown.format_voice_dump_section`: the marker line is emitted only for a
non-empty sha (Python truthiness). -/
def format_voice_dump_section (ts source_audio mode transcript : String)
    (audio_sha256 : Option String) : String :=
  let transcript2 := cleanup_transcript transcript
  let lines := ["## Voice Dump — " ++ ts,
                "**Source audio:** " ++ source_audio,
                "**Mode:** " ++ mode]
  let lines := lines ++
    (match audio_sha256 with
     | some sha => if sha == "" then [] else [voice_dump_marker sha]
     | none => [])
  let lines := lines ++ ["", transcript2, ""]
  String.intercalate "\n" lines

/-- `markdown.append_block`: normalize the block to one trailing newline; when
the file exists non-empty, add a newline unless its last byte already is one,
and a `\n---\n\n` separator when requested; opening in append mode creates a
missing file. -/
def append_block (files : Files) (topic_file block : String)
    (include_separator : Bool) : Files :=
  let block2 := rstripNl block ++ "\n"
  let content := (alistGet topic_file files).getD ""
  let pre :=
    match alistGet topic_file files with
    | some c =>
      if c == "" then ""
      else
        (if c.data.getLast? == some '\n' then "" else "\n") ++
        (if include_separator then "\n---\n\n" else "")
    | none => ""
  alistPut topic_file (content ++ pre ++ block2) files

/-! ## Archival (`archive.py`) -/

/-- `Path(p).name`: the part after the last `/` (empty for a trailing slash,
the whole string when there is no slash), written as a structural scan so it
evaluates by reduction. -/
def basename (p : String) : String :=
  String.mk ((p.data.reverse.takeWhile (fun c => c != '/')).reverse)

/-- `pathlib`'s `(stem, suffix)` of a file name: the suffix is the part from the
last dot when that dot is neither the first nor the last character. -/
def splitExt (name : String) : String × String :=
  let cs := name.data
  let n := cs.length
  match cs.reverse.findIdx? (fun c => c == '.') with
  | none => (name, "")
  | some j =>
    let i := n - 1 - j
    if 0 < i ∧ i < n - 1 then (String.mk (cs.take i), String.mk (cs.drop i))
    else (name, "")

/-- `archive.plan_archive_path`: `archive_root/subdir/name`, with a numeric
`__i` suffix (`i` in 1..999) on collision; if all candidates exist the original
colliding destination is kept. The `subdir` is the already-formatted
`now.strftime(subdir_format)` string. -/
def plan_archive_path (files : Files) (source_path archive_root subdir : String) :
    String :=
  let dest_dir := archive_root ++ "/" ++ subdir
  let dest := dest_dir ++ "/" ++ basename source_path
  if (alistGet dest files).isSome then
    let se := splitExt (basename source_path)
    match ((List.range 999).map (fun i => i + 1)).find?
        (fun i =>
          (alistGet (dest_dir ++ "/" ++ se.1 ++ "__" ++ toString i ++ se.2) files).isNone) with
    | some i => dest_dir ++ "/" ++ se.1 ++ "__" ++ toString i ++ se.2
    | none => dest
  else dest

/-! ## The pipeline orchestrator (`pipeline.py`)

`process_audio_file` is embedded over an explicit world (text files plus the
ledger) and an environment carrying what the external collaborators return.

Environment notes:
* `hashOf` — Modelled from the spec: the Content Hasher (`util.sha256_file`,
  whose module is not among the sources) is a function of the file's byte
  content only, so byte-identical files share a ContentId.
* `relArchive` — the display string `util.path_rel_to(vault_dir, planned)`
  (same missing module); it only flows into the formatted section text.
* `transcribe` / `codexResult` — the external transform and annotation steps
  (spec §1 treats both as opaque fallible collaborators); an `Except.error`
  is a raised `TranscriptionError` / `CodexError`.
* `engineValid` — whether `build_transcriber` recognises the configured
  engine; an unknown engine raises `TranscriptionError` *outside* the
  `try` block, before the transform is invoked.
* `copyFails` — whether `ensure_archived_copy` raises (the `except Exception`
  branch at pipeline.py:97).
* `now`, `ts`, `today`, `subdir` — the clock readings and their `strftime`
  renderings. -/
structure PipeEnv where
  hashOf : String → String
  now : Int
  ts : String
  today : String
  subdir : String
  relArchive : String
  engineValid : Bool
  transcribe : Except String String
  routeTopic : String
  routeMode : String
  copyFails : Bool
  codexResult : Except String String

/-- The configuration fields `process_audio_file` reads. Topic routing
(`router.decide_route`) is a pluggable classification strategy (spec §9); its
result is the environment's `routeTopic`/`routeMode`. -/
structure PipeCfg where
  topics_dir : String
  archive_root : String
  in_progress_ttl_seconds : Int
  codex_enabled : Bool

/-- The mutable world: text/byte files by path, and the ledger. -/
structure World where
  files : Files
  ledger : Store
deriving DecidableEq

/-- `pipeline.ProcessOutcome`. -/
structure ProcessOutcome where
  audio_path : String
  sha256 : String
  topic_file : String
  archived_audio : Option String
  codex_status : Option String
deriving Repr, DecidableEq

/-- Exceptions escaping `process_audio_file`. -/
inductive PyErr where
  | typeError
  | transcription (msg : String)
deriving Repr, DecidableEq

/-- The TRANSFORMED-onward tail of `process_audio_file` (pipeline.py lines
76-185): route, ensure the topic file, plan and attempt the archive copy, the
idempotent-append guard on the ContentId marker, append the voice-dump
section, the optional annotation step, archive finalization (unlink of the
original only when a copy was made), and `mark_processed`. -/
def route_and_deliver (cfg : PipeCfg) (env : PipeEnv) (audio_path : String)
    (force : Bool) (audioBytes sha transcript : String) (w1 : World) :
    Except PyErr (Option ProcessOutcome) × World :=
  let topic_title := sanitize_topic env.routeTopic "Untitled"
  let tf := topic_file_path cfg.topics_dir topic_title
  let efRes := ensure_topic_file w1.files tf topic_title
  let created := efRes.1
  let w2 : World := { w1 with files := efRes.2 }
  let planned := plan_archive_path w2.files audio_path cfg.archive_root env.subdir
  let arcRes : Option String × String × Files :=
    if env.copyFails then (none, basename audio_path, w2.files)
    else
      (some planned, env.relArchive,
       if (alistGet planned w2.files).isSome then w2.files
       else alistPut planned audioBytes w2.files)
  let archived := arcRes.1
  let source_audio_str := arcRes.2.1
  let w3 : World := { w2 with files := arcRes.2.2 }
  if notebook_contains_sha256 w3.files tf sha && !force then
    let w4 : World :=
      if archived.isSome then { w3 with files := alistErase audio_path w3.files }
      else w3
    let w5 : World :=
      { w4 with ledger := mark_processed env.now sha archived (some tf)
                    (some "skipped") none none none w4.ledger }
    (Except.ok (some { audio_path := audio_path, sha256 := sha, topic_file := tf,
                       archived_audio := archived,
                       codex_status := some "skipped" }), w5)
  else
    let vd := format_voice_dump_section env.ts source_audio_str env.routeMode
      transcript (some sha)
    let w4 : World := { w3 with files := append_block w3.files tf vd (!created) }
    let cRes : String × Files :=
      if cfg.codex_enabled then
        match env.codexResult with
        | Except.ok md =>
          let commentary := pyStrip md
          let commentary2 :=
            if !(pyLstrip commentary).startsWith "## AI Commentary —" then
              "## AI Commentary — " ++ env.today ++ "\n\n" ++ commentary
            else commentary
          ("ok", append_block w4.files tf commentary2 true)
        | Except.error e =>
          let placeholder :=
            "## AI Commentary — " ++ env.today ++
            "\n\n(Codex unavailable; rerun: `voice2md rerun-codex \"" ++ tf ++
            "\"`)\n\nError: " ++ e ++ "\n"
          ("unavailable", append_block w4.files tf placeholder true)
      else ("disabled", w4.files)
    let codex_status := cRes.1
    let w5 : World := { w4 with files := cRes.2 }
    let w6 : World :=
      if archived.isSome then { w5 with files := alistErase audio_path w5.files }
      else w5
    let w7 : World :=
      { w6 with ledger := mark_processed env.now sha archived (some tf)
                    (some codex_status) none none none w6.ledger }
    (Except.ok (some { audio_path := audio_path, sha256 := sha, topic_file := tf,
                       archived_audio := archived,
                       codex_status := some codex_status }), w7)

/-- `pipeline.process_audio_file`, the full orchestrator.

One step is modelled from the spec rather than from `state.py`: the lease call
at pipeline.py:66 (`state.mark_in_progress(sha, audio_path, force=True)`)
omits the keyword-only parameters `source_mtime_ns`/`source_size` that
`StateStore.mark_in_progress` declares as required, so against the sqlite
store in `state.py` the call raises `TypeError` (see
`process_audio_file_py`). The store actually handed to the pipeline is built
by `open_state_store` (not among the sources; the default backend is the
missing json store), and per the spec's step LEASED the lease is simply
acquired — here with a null source fingerprint, and the `force=True` upsert
semantics of `state.py`. -/
def process_audio_file (cfg : PipeCfg) (env : PipeEnv) (audio_path : String)
    (force : Bool) (w : World) : Except PyErr (Option ProcessOutcome) × World :=
  match alistGet audio_path w.files with
  | none => (Except.ok none, w)
  | some audioBytes =>
    let sha := env.hashOf audioBytes
    if is_processed w.ledger sha && !force then (Except.ok none, w)
    else if !allow_retry_in_progress env.now w.ledger sha cfg.in_progress_ttl_seconds
        && !force then (Except.ok none, w)
    else
      let w1 : World :=
        { w with ledger := mark_in_progress env.now sha audio_path none none true w.ledger }
      if !env.engineValid then
        (Except.error (PyErr.transcription "Unknown transcription.engine"), w1)
      else
        match env.transcribe with
        | Except.error e =>
          (Except.error (PyErr.transcription e),
           { w1 with ledger := mark_failed env.now sha e w1.ledger })
        | Except.ok transcript =>
          route_and_deliver cfg env audio_path force audioBytes sha transcript w1

/-- `pipeline.process_audio_file` as it executes against the sqlite
`StateStore` of `state.py`: the call at pipeline.py:66,
`state.mark_in_progress(sha, audio_path, force=True)`, omits
`source_mtime_ns` and `source_size`, which `StateStore.mark_in_progress`
(state.py:146-154) declares as *required* keyword-only parameters — Python
raises `TypeError: mark_in_progress() missing 2 required keyword-only
arguments` at that call, before the transform step; everything after it is
unreachable. (The repo's own test, tests/test_state.py, passes both
arguments.) -/
def process_audio_file_py (cfg : PipeCfg) (env : PipeEnv) (audio_path : String)
    (force : Bool) (w : World) : Except PyErr (Option ProcessOutcome) × World :=
  match alistGet audio_path w.files with
  | none => (Except.ok none, w)
  | some audioBytes =>
    let sha := env.hashOf audioBytes
    if is_processed w.ledger sha && !force then (Except.ok none, w)
    else if !allow_retry_in_progress env.now w.ledger sha cfg.in_progress_ttl_seconds
        && !force then (Except.ok none, w)
    else (Except.error PyErr.typeError, w)

theorem alistGet_put_self {β : Type} (k : String) (v : β) (l : List (String × β)) :
    alistGet k (alistPut k v l) = some v := by
  induction l with
  | nil => simp [alistGet, alistPut]
  | cons e rest ih =>
    unfold alistPut
    cases hb : (e.1 == k) with
    | true => simp [alistGet]
    | false =>
      rw [if_neg (by simp)]
      unfold alistGet
      rw [hb, if_neg (by simp)]
      exact ih

theorem alistGet_erase_self {β : Type} (k : String) (l : List (String × β)) :
    alistGet k (alistErase k l) = none := by
  induction l with
  | nil => rfl
  | cons e rest ih =>
    unfold alistErase at ih ⊢
    simp only [List.filter]
    cases hb : (e.1 != k) with
    | false =>
      dsimp only
      exact ih
    | true =>
      dsimp only
      unfold alistGet
      have h2 : (e.1 == k) = false := by simpa using hb
      rw [h2, if_neg (by simp)]
      exact ih

theorem alistGet_ensure_topic_ne (fs : Files) (tf title k : String) (h : k ≠ tf) :
    alistGet k (ensure_topic_file fs tf title).2 = alistGet k fs := by
  unfold ensure_topic_file
  cases hg : alistGet tf fs with
  | some c => rfl
  | none => exact alistGet_put_ne k tf _ fs h

/-- The gates passed and the transform succeeded: `process_audio_file` is the
TRANSFORMED-onward tail over the world with the lease taken. -/
theorem process_run_ok (cfg : PipeCfg) (env : PipeEnv) (audio_path : String)
    (w : World) (bytes t : String)
    (hfile : alistGet audio_path w.files = some bytes)
    (hnp : is_processed w.ledger (env.hashOf bytes) = false)
    (hretry : allow_retry_in_progress env.now w.ledger (env.hashOf bytes)
        cfg.in_progress_ttl_seconds = true)
    (heng : env.engineValid = true)
    (htr : env.transcribe = Except.ok t) :
    process_audio_file cfg env audio_path false w =
      route_and_deliver cfg env audio_path false bytes (env.hashOf bytes) t
        { w with ledger := mark_in_progress env.now (env.hashOf bytes) audio_path
                    none none true w.ledger } := by
  unfold process_audio_file
  rw [hfile]
  dsimp only
  rw [hnp, hretry, heng, htr]
  rfl

/-! ## C5 — what actually escapes the orchestrator

Claimed: only a transform failure propagates. In fact, for every file that
exists and passes the skip checks, `pipeline.py:66` raises `TypeError` before
the transform is ever invoked, because the call omits the required
keyword-only arguments of `StateStore.mark_in_progress` (state.py:146-154). -/

def c5cfg : PipeCfg :=
  { topics_dir := "/topics", archive_root := "/arch", in_progress_ttl_seconds := 3600,
    codex_enabled := false }

def c5env : PipeEnv :=
  { hashOf := fun _ => "deadbeef", now := 100, ts := "2026-01-01 10:00",
    today := "2026-01-01", subdir := "2026/01", relArchive := "_att/2026/01/a.m4a",
    engineValid := true, transcribe := Except.ok "hello world",
    routeTopic := "Ideas", routeMode := "brainstorming", copyFails := false,
    codexResult := Except.ok "commentary" }

def c5world : World := { files := [("/inbox/a.m4a", "AUDIO")], ledger := [] }

/-- C5, at the failing input: the file exists, nothing is processed, the lease
is free, and the transform step would even succeed — yet the run raises
`TypeError` (not a transcription failure) at the `mark_in_progress` call and
terminates with the world unchanged, contradicting "the only error the
Orchestrator propagates is a transform failure". -/
theorem c5_typeerror_preempts_pipeline :
    process_audio_file_py c5cfg c5env "/inbox/a.m4a" false c5world =
      (Except.error PyErr.typeError, c5world) ∧
    c5env.transcribe = Except.ok "hello world" ∧
    PyErr.typeError ≠ PyErr.transcription "hello world" := by
  refine ⟨rfl, rfl, by decide⟩

/-! ## C6 — transform failure: mark failed, re-raise, document untouched -/

/-- C6: whenever the external transform step fails (the gates passed: the file
exists, its content is not yet processed, the lease is obtainable, and the
engine is valid so the failure is the transform invocation itself), the
orchestrator re-raises the failure, the ledger entry for that ContentId is
`mark_failed` with the error detail (over the just-acquired lease), and the
file system is exactly as before — no destination document is created,
modified or appended to. -/
theorem c6_transform_failure_marks_and_reraises (cfg : PipeCfg) (env : PipeEnv)
    (audio_path : String) (w : World) (bytes e : String)
    (hfile : alistGet audio_path w.files = some bytes)
    (hnp : is_processed w.ledger (env.hashOf bytes) = false)
    (hretry : allow_retry_in_progress env.now w.ledger (env.hashOf bytes)
        cfg.in_progress_ttl_seconds = true)
    (heng : env.engineValid = true)
    (htr : env.transcribe = Except.error e) :
    process_audio_file cfg env audio_path false w =
      (Except.error (PyErr.transcription e),
       { files := w.files,
         ledger := mark_failed env.now (env.hashOf bytes) e
           (mark_in_progress env.now (env.hashOf bytes) audio_path none none true
             w.ledger) }) := by
  unfold process_audio_file
  rw [hfile]
  dsimp only
  rw [hnp, hretry, heng, htr]
  rfl

def c6cfg : PipeCfg :=
  { topics_dir := "/topics", archive_root := "/arch", in_progress_ttl_seconds := 3600,
    codex_enabled := true }

def c6env : PipeEnv :=
  { hashOf := fun _ => "deadbeef", now := 100, ts := "2026-01-01 10:00",
    today := "2026-01-01", subdir := "2026/01", relArchive := "_att/2026/01/a.m4a",
    engineValid := true, transcribe := Except.error "whisper.cpp failed (exit 1)",
    routeTopic := "Ideas", routeMode := "brainstorming", copyFails := false,
    codexResult := Except.ok "commentary" }

def c6world : World := { files := [("/inbox/a.m4a", "AUDIO")], ledger := [] }

/-- C6 witness. -/
theorem c6_transform_failure_marks_and_reraises_witness :
    process_audio_file c6cfg c6env "/inbox/a.m4a" false c6world =
      (Except.error (PyErr.transcription "whisper.cpp failed (exit 1)"),
       { files := c6world.files,
         ledger := mark_failed 100 "deadbeef" "whisper.cpp failed (exit 1)"
           (mark_in_progress 100 "deadbeef" "/inbox/a.m4a" none none true []) }) :=
  c6_transform_failure_marks_and_reraises c6cfg c6env "/inbox/a.m4a" c6world
    "AUDIO" "whisper.cpp failed (exit 1)" (by rfl) (by rfl) (by rfl) (by rfl) (by rfl)

theorem alistGet_append_block_ne (fs : Files) (tf blk k : String) (b : Bool)
    (h : k ≠ tf) :
    alistGet k (append_block fs tf blk b) = alistGet k fs := by
  unfold append_block
  dsimp only
  exact alistGet_put_ne k tf _ fs h

/-! ## C8 — archival is best-effort; the original is removed only after the copy -/

/-- C8: in a run whose gates pass and whose transform succeeds,
(1) when the archive copy step fails, the original file is never unlinked
(it is still on disk with its bytes after the run) and the pipeline still
returns a processed outcome — with no archive reference — rather than
aborting; (2) when the copy step succeeds onto a fresh destination, the
original is removed and the archive copy holds the original bytes on disk at
the end of the run, and the outcome carries that archive reference — i.e. the
unlink happens only in runs where the copy is confirmed. -/
theorem c8_archive_is_best_effort (cfg : PipeCfg) (env : PipeEnv)
    (audio_path : String) (w : World) (bytes t : String)
    (hfile : alistGet audio_path w.files = some bytes)
    (hnp : is_processed w.ledger (env.hashOf bytes) = false)
    (hretry : allow_retry_in_progress env.now w.ledger (env.hashOf bytes)
        cfg.in_progress_ttl_seconds = true)
    (heng : env.engineValid = true)
    (htr : env.transcribe = Except.ok t)
    (htfa : topic_file_path cfg.topics_dir (sanitize_topic env.routeTopic "Untitled") ≠
        audio_path) :
    (env.copyFails = true →
      (∃ o, (process_audio_file cfg env audio_path false w).1 = Except.ok (some o) ∧
        o.archived_audio = none) ∧
      alistGet audio_path (process_audio_file cfg env audio_path false w).2.files =
        some bytes) ∧
    (∀ planned,
      env.copyFails = false →
      planned = plan_archive_path
        (ensure_topic_file w.files
          (topic_file_path cfg.topics_dir (sanitize_topic env.routeTopic "Untitled"))
          (sanitize_topic env.routeTopic "Untitled")).2
        audio_path cfg.archive_root env.subdir →
      alistGet planned
        (ensure_topic_file w.files
          (topic_file_path cfg.topics_dir (sanitize_topic env.routeTopic "Untitled"))
          (sanitize_topic env.routeTopic "Untitled")).2 = none →
      planned ≠ audio_path →
      planned ≠ topic_file_path cfg.topics_dir (sanitize_topic env.routeTopic "Untitled") →
      alistGet audio_path (process_audio_file cfg env audio_path false w).2.files = none ∧
      alistGet planned (process_audio_file cfg env audio_path false w).2.files =
        some bytes ∧
      ∃ o, (process_audio_file cfg env audio_path false w).1 = Except.ok (some o) ∧
        o.archived_audio = some planned) := by
  have hta : audio_path ≠
      topic_file_path cfg.topics_dir (sanitize_topic env.routeTopic "Untitled") :=
    fun he => htfa he.symm
  rw [process_run_ok cfg env audio_path w bytes t hfile hnp hretry heng htr]
  refine ⟨fun hcopy => ?_, fun planned hcopy hpl hfresh hpa hptf => ?_⟩
  · unfold route_and_deliver
    dsimp only
    rw [hcopy, if_pos rfl]
    dsimp only
    simp only [Bool.not_false, Bool.and_true]
    by_cases hdup : notebook_contains_sha256
        (ensure_topic_file w.files
          (topic_file_path cfg.topics_dir (sanitize_topic env.routeTopic "Untitled"))
          (sanitize_topic env.routeTopic "Untitled")).2
        (topic_file_path cfg.topics_dir (sanitize_topic env.routeTopic "Untitled"))
        (env.hashOf bytes) = true
    · rw [if_pos hdup]
      dsimp only
      refine ⟨⟨_, rfl, rfl⟩, ?_⟩
      rw [show (none : Option String).isSome = false from rfl,
          if_neg Bool.false_ne_true]
      dsimp only
      rw [alistGet_ensure_topic_ne _ _ _ _ hta]
      exact hfile
    · rw [if_neg hdup]
      dsimp only
      refine ⟨⟨_, rfl, rfl⟩, ?_⟩
      rw [show (none : Option String).isSome = false from rfl,
          if_neg Bool.false_ne_true]
      dsimp only
      cases hcdx : cfg.codex_enabled with
      | false =>
        rw [if_neg Bool.false_ne_true]
        dsimp only
        rw [alistGet_append_block_ne _ _ _ _ _ hta,
            alistGet_ensure_topic_ne _ _ _ _ hta]
        exact hfile
      | true =>
        rw [if_pos rfl]
        cases hres : env.codexResult with
        | ok md =>
          dsimp only
          rw [alistGet_append_block_ne _ _ _ _ _ hta,
              alistGet_append_block_ne _ _ _ _ _ hta,
              alistGet_ensure_topic_ne _ _ _ _ hta]
          exact hfile
        | error e2 =>
          dsimp only
          rw [alistGet_append_block_ne _ _ _ _ _ hta,
              alistGet_append_block_ne _ _ _ _ _ hta,
              alistGet_ensure_topic_ne _ _ _ _ hta]
          exact hfile
  · unfold route_and_deliver
    dsimp only
    rw [hcopy, if_neg Bool.false_ne_true]
    rw [← hpl, hfresh,
        show (none : Option String).isSome = false from rfl,
        if_neg Bool.false_ne_true]
    dsimp only
    simp only [Bool.not_false, Bool.and_true]
    by_cases hdup : notebook_contains_sha256
        (alistPut planned bytes
          (ensure_topic_file w.files
            (topic_file_path cfg.topics_dir (sanitize_topic env.routeTopic "Untitled"))
            (sanitize_topic env.routeTopic "Untitled")).2)
        (topic_file_path cfg.topics_dir (sanitize_topic env.routeTopic "Untitled"))
        (env.hashOf bytes) = true
    · rw [if_pos hdup]
      dsimp only
      refine ⟨?_, ?_, ⟨_, rfl, rfl⟩⟩
      · rw [show (some planned).isSome = true from rfl, if_pos rfl]
        dsimp only
        exact alistGet_erase_self _ _
      · rw [show (some planned).isSome = true from rfl, if_pos rfl]
        dsimp only
        rw [alistGet_erase_ne _ _ _ hpa, alistGet_put_self]
    · rw [if_neg hdup]
      dsimp only
      refine ⟨?_, ?_, ⟨_, rfl, rfl⟩⟩
      · rw [show (some planned).isSome = true from rfl, if_pos rfl]
        dsimp only
        exact alistGet_erase_self _ _
      · rw [show (some planned).isSome = true from rfl, if_pos rfl]
        dsimp only
        cases hcdx : cfg.codex_enabled with
        | false =>
          rw [if_neg Bool.false_ne_true]
          dsimp only
          rw [alistGet_erase_ne _ _ _ hpa,
              alistGet_append_block_ne _ _ _ _ _ hptf,
              alistGet_put_self]
        | true =>
          rw [if_pos rfl]
          cases hres : env.codexResult with
          | ok md =>
            dsimp only
            rw [alistGet_erase_ne _ _ _ hpa,
                alistGet_append_block_ne _ _ _ _ _ hptf,
                alistGet_append_block_ne _ _ _ _ _ hptf,
                alistGet_put_self]
          | error e2 =>
            dsimp only
            rw [alistGet_erase_ne _ _ _ hpa,
                alistGet_append_block_ne _ _ _ _ _ hptf,
                alistGet_append_block_ne _ _ _ _ _ hptf,
                alistGet_put_self]

def c8cfg : PipeCfg :=
  { topics_dir := "/topics", archive_root := "/arch", in_progress_ttl_seconds := 3600,
    codex_enabled := true }

def c8env : PipeEnv :=
  { hashOf := fun _ => "deadbeef", now := 100, ts := "2026-01-01 10:00",
    today := "2026-01-01", subdir := "2026/01", relArchive := "_att/2026/01/a.m4a",
    engineValid := true, transcribe := Except.ok "hello world",
    routeTopic := "Ideas", routeMode := "brainstorming", copyFails := true,
    codexResult := Except.error "Codex timed out after 180s" }

def c8world : World := { files := [("/inbox/a.m4a", "AUDIO")], ledger := [] }

/-- C8 witness: a run whose archive copy fails — the outcome is still returned
with no archive reference and the original audio is still on disk. -/
theorem c8_archive_is_best_effort_witness :
    (∃ o, (process_audio_file c8cfg c8env "/inbox/a.m4a" false c8world).1 =
        Except.ok (some o) ∧ o.archived_audio = none) ∧
    alistGet "/inbox/a.m4a"
        (process_audio_file c8cfg c8env "/inbox/a.m4a" false c8world).2.files =
      some "AUDIO" :=
  (c8_archive_is_best_effort c8cfg c8env "/inbox/a.m4a" c8world "AUDIO" "hello world"
      (by decide) (by decide) (by decide) (by decide) rfl (by decide)).1 (by decide)

/-! ## C7 — supporting string lemmas -/

/-- Number of positions of `l` at which `pat` occurs (overlapping occurrences
each counted). -/
def occCount (pat : List Char) : List Char → Nat
  | [] => 0
  | c :: cs => (if pat.isPrefixOf (c :: cs) then 1 else 0) + occCount pat cs

theorem isPrefixOf_lt_head (rest : List Char) (c : Char) (cs : List Char)
    (h : c ≠ '<') : (('<' :: rest).isPrefixOf (c :: cs)) = false := by
  have hb : ('<' == c) = false := by simpa using fun he => h he.symm
  simp [List.isPrefixOf, hb]

theorem occCount_eq_zero (rest l : List Char) (h : '<' ∉ l) :
    occCount ('<' :: rest) l = 0 := by
  induction l with
  | nil => rfl
  | cons c cs ih =>
    have hc : c ≠ '<' := fun he => h (he ▸ List.mem_cons_self c cs)
    unfold occCount
    rw [isPrefixOf_lt_head _ _ _ hc, if_neg Bool.false_ne_true,
        ih (fun hm => h (List.mem_cons_of_mem c hm))]

theorem occCount_append_left (rest P l : List Char) (hP : '<' ∉ P) :
    occCount ('<' :: rest) (P ++ l) = occCount ('<' :: rest) l := by
  induction P with
  | nil => rfl
  | cons c cs ih =>
    have hc : c ≠ '<' := fun he => hP (he ▸ List.mem_cons_self c cs)
    rw [show occCount ('<' :: rest) ((c :: cs) ++ l) =
          (if (('<' :: rest).isPrefixOf (c :: (cs ++ l))) = true then 1 else 0) +
            occCount ('<' :: rest) (cs ++ l) from rfl,
        isPrefixOf_lt_head _ _ _ hc, if_neg Bool.false_ne_true,
        ih (fun hm => hP (List.mem_cons_of_mem c hm))]
    exact Nat.zero_add _

theorem isPrefixOf_append_self (l m : List Char) : (l.isPrefixOf (l ++ m)) = true := by
  induction l with
  | nil => simp [List.isPrefixOf]
  | cons c cs ih => simp [List.isPrefixOf, ih]

theorem occCount_exact_one (rest P S : List Char)
    (hP : '<' ∉ P) (hr : '<' ∉ rest) (hS : '<' ∉ S) :
    occCount ('<' :: rest) (P ++ ('<' :: rest) ++ S) = 1 := by
  rw [List.append_assoc, occCount_append_left _ _ _ hP]
  show occCount ('<' :: rest) ('<' :: (rest ++ S)) = 1
  unfold occCount
  rw [show (('<' :: rest).isPrefixOf ('<' :: (rest ++ S))) = true from by
        simp [List.isPrefixOf, isPrefixOf_append_self],
      if_pos rfl, occCount_append_left _ _ _ hr, occCount_eq_zero _ _ hS]

theorem hasSubstr_eq_false (rest l : List Char) (h : '<' ∉ l) :
    hasSubstr ('<' :: rest) l = false := by
  induction l with
  | nil => rfl
  | cons c cs ih =>
    have hc : c ≠ '<' := fun he => h (he ▸ List.mem_cons_self c cs)
    unfold hasSubstr
    rw [isPrefixOf_lt_head _ _ _ hc,
        ih (fun hm => h (List.mem_cons_of_mem c hm))]
    rfl

theorem rstripL_append (X Y : List Char) (hX : X.getLast? ≠ some '\n') :
    rstripL (X ++ Y) = X ++ rstripL Y := by
  unfold rstripL
  rw [List.reverse_append, List.dropWhile_append]
  by_cases he : (List.dropWhile (fun c => c == '\n') Y.reverse).isEmpty = true
  · rw [if_pos he]
    have hY : List.dropWhile (fun c => c == '\n') Y.reverse = [] := by
      simpa using he
    rw [hY]
    simp only [List.reverse_nil, List.append_nil]
    cases hXr : X.reverse with
    | nil =>
      have : X = [] := by simpa using congrArg List.reverse hXr
      simp [this]
    | cons h0 tl =>
      have hh : (h0 == '\n') = false := by
        have hlast : X.getLast? = some h0 := by
          rw [← List.head?_reverse, hXr]; rfl
        simpa using fun he2 => hX (by rw [hlast, he2])
      rw [List.dropWhile_cons_of_neg (by simp [hh])]
      rw [← hXr, List.reverse_reverse]
  · rw [if_neg he]
    rw [List.reverse_append, List.reverse_reverse]

theorem mem_rstripL {a : Char} {l : List Char} (h : a ∈ rstripL l) : a ∈ l := by
  unfold rstripL at h
  exact List.mem_reverse.1 ((List.dropWhile_sublist _).mem (List.mem_reverse.1 h))

theorem mem_foldr_keep_or_cons (f : Char → List Char → List Char)
    (hf : ∀ c acc, f c acc = acc ∨ f c acc = c :: acc) :
    ∀ (l : List Char) (a : Char), a ∈ List.foldr f [] l → a ∈ l := by
  intro l
  induction l with
  | nil => intro a h; cases h
  | cons c cs ih =>
    intro a h
    rw [List.foldr_cons] at h
    rcases hf c (List.foldr f [] cs) with he | he
    · rw [he] at h
      exact List.mem_cons_of_mem _ (ih a h)
    · rw [he] at h
      rcases List.mem_cons.1 h with h1 | h1
      · exact h1 ▸ List.mem_cons_self c cs
      · exact List.mem_cons_of_mem _ (ih a h1)

theorem mem_stripWsBeforeNl (l : List Char) (a : Char)
    (h : a ∈ stripWsBeforeNl l) : a ∈ l :=
  mem_foldr_keep_or_cons _
    (fun c acc => by
      by_cases hc : ((c == ' ' || c == '\t') && acc.head? == some '\n') = true
      · exact Or.inl (if_pos hc)
      · exact Or.inr (if_neg hc))
    l a h

theorem mem_collapseNl (l : List Char) (a : Char)
    (h : a ∈ collapseNl l) : a ∈ l :=
  mem_foldr_keep_or_cons _
    (fun c acc => by
      by_cases hc : (c == '\n' && acc.take 2 == ['\n', '\n']) = true
      · exact Or.inl (if_pos hc)
      · exact Or.inr (if_neg hc))
    l a h

theorem mem_fixNewlines (l : List Char) (a : Char) (h : a ∈ fixNewlines l) :
    a ∈ l ∨ a = '\n' := by
  induction l using fixNewlines.induct with
  | case1 => cases h
  | case2 rest ih =>
    rw [show fixNewlines ('\r' :: '\n' :: rest) = '\n' :: fixNewlines rest from rfl] at h
    rcases List.mem_cons.1 h with he | hm
    · exact Or.inr he
    · rcases ih hm with h1 | h1
      · exact Or.inl (List.mem_cons_of_mem _ (List.mem_cons_of_mem _ h1))
      · exact Or.inr h1
  | case3 rest hne ih =>
    simp only [fixNewlines] at h
    rcases List.mem_cons.1 h with he | hm
    · exact Or.inr he
    · rcases ih hm with h1 | h1
      · exact Or.inl (List.mem_cons_of_mem _ h1)
      · exact Or.inr h1
  | case4 c rest hne1 hne2 ih =>
    simp only [fixNewlines] at h
    rcases List.mem_cons.1 h with he | hm
    · exact Or.inl (he ▸ List.mem_cons_self c rest)
    · rcases ih hm with h1 | h1
      · exact Or.inl (List.mem_cons_of_mem _ h1)
      · exact Or.inr h1

theorem mem_pyStrip (s : String) (a : Char) (h : a ∈ (pyStrip s).data) :
    a ∈ s.data := by
  unfold pyStrip at h
  exact (List.dropWhile_sublist _).mem
    (List.mem_reverse.1 ((List.dropWhile_sublist _).mem (List.mem_reverse.1 h)))

theorem mem_cleanup_transcript (t : String) (a : Char)
    (h : a ∈ (cleanup_transcript t).data) : a ∈ t.data ∨ a = '\n' := by
  unfold cleanup_transcript at h
  exact mem_fixNewlines _ _ (mem_stripWsBeforeNl _ _ (mem_collapseNl _ _ (mem_pyStrip _ _ h)))

theorem mem_collapseWsAux (b : Bool) (l : List Char) (a : Char)
    (h : a ∈ collapseWsAux b l) : a ∈ l ∨ a = ' ' := by
  induction l generalizing b with
  | nil => cases h
  | cons c cs ih =>
    unfold collapseWsAux at h
    by_cases hc : isPyWs c = true
    · rw [if_pos hc] at h
      rcases List.mem_append.1 h with h1 | h1
      · by_cases hb : b = true
        · rw [if_pos hb] at h1; cases h1
        · rw [if_neg hb] at h1
          exact Or.inr (by simpa using h1)
      · rcases ih true h1 with h2 | h2
        · exact Or.inl (List.mem_cons_of_mem _ h2)
        · exact Or.inr h2
    · rw [if_neg hc] at h
      rcases List.mem_cons.1 h with h1 | h1
      · exact Or.inl (h1 ▸ List.mem_cons_self c cs)
      · rcases ih false h1 with h2 | h2
        · exact Or.inl (List.mem_cons_of_mem _ h2)
        · exact Or.inr h2

theorem mem_collapseSlashesAux (b : Bool) (l : List Char) (a : Char)
    (h : a ∈ collapseSlashesAux b l) : a ∈ l ∨ a = '-' := by
  induction l generalizing b with
  | nil => cases h
  | cons c cs ih =>
    unfold collapseSlashesAux at h
    by_cases hc : (c == '/' || c == '\\') = true
    · rw [if_pos hc] at h
      rcases List.mem_append.1 h with h1 | h1
      · by_cases hb : b = true
        · rw [if_pos hb] at h1; cases h1
        · rw [if_neg hb] at h1
          exact Or.inr (by simpa using h1)
      · rcases ih true h1 with h2 | h2
        · exact Or.inl (List.mem_cons_of_mem _ h2)
        · exact Or.inr h2
    · rw [if_neg hc] at h
      rcases List.mem_cons.1 h with h1 | h1
      · exact Or.inl (h1 ▸ List.mem_cons_self c cs)
      · rcases ih false h1 with h2 | h2
        · exact Or.inl (List.mem_cons_of_mem _ h2)
        · exact Or.inr h2

/-- `sanitize_topic` removes every `<` (it is one of the forbidden characters),
so as long as the fallback has none, its output has none. -/
theorem lt_not_mem_sanitize (x f : String) (hf : '<' ∉ f.data) :
    '<' ∉ (sanitize_topic x f).data := by
  intro h
  unfold sanitize_topic at h
  dsimp only at h
  split at h
  · exact hf h
  · have h1 := mem_pyStrip _ _ h
    rcases mem_collapseWsAux false _ _ h1 with h2 | h2
    · have h3 := (List.mem_filter.1 h2).2
      simp [isForbiddenTopicChar] at h3
    · exact absurd h2 (by decide)

theorem not_mem_append {a : Char} {l m : List Char} (h1 : a ∉ l) (h2 : a ∉ m) :
    a ∉ l ++ m :=
  fun h => (List.mem_append.1 h).elim h1 h2

theorem not_mem_cons {a b : Char} {l : List Char} (h1 : a ≠ b) (h2 : a ∉ l) :
    a ∉ b :: l := by
  intro h
  rcases List.mem_cons.1 h with he | hm
  · exact h1 he
  · exact h2 hm

/-- The marker string decomposed at its leading `<`. -/
theorem voice_dump_marker_data (sha : String) :
    (voice_dump_marker sha).data =
      '<' :: ("!-- voice2md:sha256=" ++ sha ++ " -->").data := by
  unfold voice_dump_marker
  simp only [String.data_append]
  rfl

/-- After `mark_processed`, the entry's status reads `processed`. -/
theorem is_processed_mark_processed (now : Int) (sha : String)
    (ap tf cs sp : Option String) (mt sz : Option Int) (s : Store) :
    is_processed (mark_processed now sha ap tf cs sp mt sz s) sha = true := by
  unfold is_processed mark_processed
  cases h : get s sha with
  | none =>
    dsimp only
    simp [get, List.find?]
  | some r =>
    dsimp only
    rw [get_upd, h]
    · rfl
    · exact fun r => rfl

/-- Full evaluation of a first run whose gates pass, whose transform succeeds,
whose topic file does not exist yet, whose archive copy fails, whose annotation
step is disabled, and whose fresh topic file does not yet carry the marker. -/
theorem c7_run_eval (cfg : PipeCfg) (env : PipeEnv) (p1 : String) (w : World)
    (bytes t : String)
    (hfile : alistGet p1 w.files = some bytes)
    (hnp : is_processed w.ledger (env.hashOf bytes) = false)
    (hretry : allow_retry_in_progress env.now w.ledger (env.hashOf bytes)
        cfg.in_progress_ttl_seconds = true)
    (heng : env.engineValid = true)
    (htr : env.transcribe = Except.ok t)
    (htf : alistGet (topic_file_path cfg.topics_dir
        (sanitize_topic env.routeTopic "Untitled")) w.files = none)
    (hcodex : cfg.codex_enabled = false)
    (hcopy : env.copyFails = true)
    (hdup : notebook_contains_sha256
        (alistPut (topic_file_path cfg.topics_dir (sanitize_topic env.routeTopic "Untitled"))
          ("# " ++ sanitize_topic env.routeTopic "Untitled" ++ "\n\n") w.files)
        (topic_file_path cfg.topics_dir (sanitize_topic env.routeTopic "Untitled"))
        (env.hashOf bytes) = false) :
    process_audio_file cfg env p1 false w =
      (Except.ok (some
        { audio_path := p1, sha256 := env.hashOf bytes,
          topic_file := topic_file_path cfg.topics_dir (sanitize_topic env.routeTopic "Untitled"),
          archived_audio := none, codex_status := some "disabled" }),
       { files := append_block
           (alistPut (topic_file_path cfg.topics_dir (sanitize_topic env.routeTopic "Untitled"))
             ("# " ++ sanitize_topic env.routeTopic "Untitled" ++ "\n\n") w.files)
           (topic_file_path cfg.topics_dir (sanitize_topic env.routeTopic "Untitled"))
           (format_voice_dump_section env.ts (basename p1) env.routeMode t
             (some (env.hashOf bytes)))
           false,
         ledger := mark_processed env.now (env.hashOf bytes) none
           (some (topic_file_path cfg.topics_dir (sanitize_topic env.routeTopic "Untitled")))
           (some "disabled") none none none
           (mark_in_progress env.now (env.hashOf bytes) p1 none none true w.ledger) }) := by
  rw [process_run_ok cfg env p1 w bytes t hfile hnp hretry heng htr]
  unfold route_and_deliver
  dsimp only
  rw [show ensure_topic_file w.files
        (topic_file_path cfg.topics_dir (sanitize_topic env.routeTopic "Untitled"))
        (sanitize_topic env.routeTopic "Untitled") =
      (true, alistPut (topic_file_path cfg.topics_dir (sanitize_topic env.routeTopic "Untitled"))
        ("# " ++ sanitize_topic env.routeTopic "Untitled" ++ "\n\n") w.files) from by
    unfold ensure_topic_file
    rw [htf]]
  dsimp only
  rw [hcopy, if_pos rfl]
  dsimp only
  simp only [Bool.not_false, Bool.not_true, Bool.and_true]
  rw [hdup, if_neg Bool.false_ne_true]
  rw [hcodex, if_neg Bool.false_ne_true]
  dsimp only
  rw [show (none : Option String).isSome = false from rfl, if_neg Bool.false_ne_true]

/-- The document written by such a first run carries exactly one occurrence of
the ContentId's marker, provided neither the surrounding fixed text nor the
routed topic, timestamp, mode, source name or transcript contains a `<`. -/
theorem marker_count_of_doc (ts sa mode t sha title : String)
    (hsha : (sha == "") = false) (hshac : '<' ∉ sha.data)
    (hts : '<' ∉ ts.data) (hsa : '<' ∉ sa.data) (hmode : '<' ∉ mode.data)
    (htrc : '<' ∉ t.data) (htitle : '<' ∉ title.data) :
    occCount (voice_dump_marker sha).data
      (("# " ++ title ++ "\n\n") ++ ("" ++ "") ++
        (rstripNl (format_voice_dump_section ts sa mode t (some sha)) ++ "\n")).data = 1 := by
  have hnl : ("\n" : String).data = ['\n'] := rfl
  have h2nl : ("\n\n" : String).data = ['\n', '\n'] := rfl
  have hemp : ("" : String).data = [] := rfl
  have hvd : format_voice_dump_section ts sa mode t (some sha) =
      ("## Voice Dump — " ++ ts) ++ "\n" ++ ("**Source audio:** " ++ sa) ++ "\n" ++
        ("**Mode:** " ++ mode) ++ "\n" ++ voice_dump_marker sha ++ "\n" ++ "" ++ "\n" ++
        cleanup_transcript t ++ "\n" ++ "" := by
    unfold format_voice_dump_section
    dsimp only
    rw [hsha, if_neg Bool.false_ne_true]
    rfl
  have hsplit : (format_voice_dump_section ts sa mode t (some sha)).data =
      (((("## Voice Dump — " : String).data ++ ts.data) ++ ('\n' ::
        ((("**Source audio:** " : String).data ++ sa.data) ++ ('\n' ::
          ((("**Mode:** " : String).data ++ mode.data) ++ ['\n']))))) ++
        (voice_dump_marker sha).data) ++
      ('\n' :: ('\n' :: ((cleanup_transcript t).data ++ ['\n']))) := by
    rw [hvd]
    simp [String.data_append, hnl, hemp, List.append_assoc]
  have hmne : (voice_dump_marker sha).data ≠ [] := by
    rw [voice_dump_marker_data]
    exact List.cons_ne_nil _ _
  have hml : (voice_dump_marker sha).data.getLast? = some '>' := by
    unfold voice_dump_marker
    rw [String.data_append,
        List.getLast?_append_of_ne_nil _ (by decide : (" -->" : String).data ≠ [])]
    rfl
  have hX : (((("## Voice Dump — " : String).data ++ ts.data) ++ ('\n' ::
        ((("**Source audio:** " : String).data ++ sa.data) ++ ('\n' ::
          ((("**Mode:** " : String).data ++ mode.data) ++ ['\n']))))) ++
        (voice_dump_marker sha).data).getLast? ≠ some '\n' := by
    rw [List.getLast?_append_of_ne_nil _ hmne, hml]
    simp
  have hdd : (("# " ++ title ++ "\n\n") ++ ("" ++ "") ++
      (rstripNl (format_voice_dump_section ts sa mode t (some sha)) ++ "\n")).data =
      (((("# " : String).data ++ title.data) ++ ('\n' :: ('\n' ::
        ((("## Voice Dump — " : String).data ++ ts.data) ++ ('\n' ::
          ((("**Source audio:** " : String).data ++ sa.data) ++ ('\n' ::
            ((("**Mode:** " : String).data ++ mode.data) ++ ['\n'])))))))) ++
        ('<' :: ("!-- voice2md:sha256=" ++ sha ++ " -->").data)) ++
      (rstripL ('\n' :: ('\n' :: ((cleanup_transcript t).data ++ ['\n']))) ++ ['\n']) := by
    simp only [String.data_append]
    rw [show (rstripNl (format_voice_dump_section ts sa mode t (some sha))).data =
          rstripL (format_voice_dump_section ts sa mode t (some sha)).data from rfl,
        hsplit, rstripL_append _ _ hX, voice_dump_marker_data]
    simp [String.data_append, hnl, h2nl, hemp, List.append_assoc]
  rw [voice_dump_marker_data, hdd]
  refine occCount_exact_one _ _ _ ?_ ?_ ?_
  · exact not_mem_append
      (not_mem_append (by decide) htitle)
      (not_mem_cons (by decide)
        (not_mem_cons (by decide)
          (not_mem_append
            (not_mem_append (by decide) hts)
            (not_mem_cons (by decide)
              (not_mem_append
                (not_mem_append (by decide) hsa)
                (not_mem_cons (by decide)
                  (not_mem_append
                    (not_mem_append (by decide) hmode)
                    (by decide))))))))
  · intro h
    rw [String.data_append, String.data_append] at h
    exact not_mem_append (not_mem_append (by decide) hshac) (by decide) h
  · refine not_mem_append ?_ (by decide)
    intro h
    have h2 := mem_rstripL h
    rcases List.mem_cons.1 h2 with he | h2
    · exact absurd he (by decide)
    rcases List.mem_cons.1 h2 with he | h2
    · exact absurd he (by decide)
    rcases List.mem_append.1 h2 with h3 | h3
    · rcases mem_cleanup_transcript t _ h3 with h4 | h4
      · exact htrc h4
      · exact absurd h4 (by decide)
    · exact absurd h3 (by decide)

/-- C7: for a first run whose gates pass (file on disk, ContentId unprocessed, no
live lease), whose transform succeeds, whose topic file does not exist yet, with
the annotation step disabled and the archive copy failing (so the original file
remains), and whose ContentId/timestamp/mode/source-name/transcript carry no raw
`<`: the run returns an outcome; any second invocation on a byte-identical file
(the same ContentId, `force=false`) exits as skipped — `None`, with world and
ledger untouched; and the destination document holds exactly one occurrence of
the ContentId's marker, not two. -/
theorem c7_idempotent_replay (cfg : PipeCfg) (env : PipeEnv) (p1 : String)
    (w : World) (bytes t : String)
    (hfile : alistGet p1 w.files = some bytes)
    (hnp : is_processed w.ledger (env.hashOf bytes) = false)
    (hretry : allow_retry_in_progress env.now w.ledger (env.hashOf bytes)
        cfg.in_progress_ttl_seconds = true)
    (heng : env.engineValid = true)
    (htr : env.transcribe = Except.ok t)
    (htf : alistGet (topic_file_path cfg.topics_dir
        (sanitize_topic env.routeTopic "Untitled")) w.files = none)
    (hcodex : cfg.codex_enabled = false)
    (hcopy : env.copyFails = true)
    (hsha : (env.hashOf bytes == "") = false)
    (hshac : '<' ∉ (env.hashOf bytes).data)
    (hts : '<' ∉ env.ts.data)
    (hmode : '<' ∉ env.routeMode.data)
    (hbase : '<' ∉ (basename p1).data)
    (htrc : '<' ∉ t.data) :
    (∃ o, (process_audio_file cfg env p1 false w).1 = Except.ok (some o)) ∧
    (∀ p2, alistGet p2 (process_audio_file cfg env p1 false w).2.files = some bytes →
      process_audio_file cfg env p2 false (process_audio_file cfg env p1 false w).2 =
        (Except.ok none, (process_audio_file cfg env p1 false w).2)) ∧
    (∃ doc,
      alistGet (topic_file_path cfg.topics_dir (sanitize_topic env.routeTopic "Untitled"))
        (process_audio_file cfg env p1 false w).2.files = some doc ∧
      occCount (voice_dump_marker (env.hashOf bytes)).data doc.data = 1) := by
  have htitle : '<' ∉ (sanitize_topic env.routeTopic "Untitled").data :=
    lt_not_mem_sanitize env.routeTopic "Untitled" (by decide)
  have hhdr : '<' ∉ ("# " ++ sanitize_topic env.routeTopic "Untitled" ++ "\n\n").data := by
    intro h
    rw [String.data_append, String.data_append] at h
    exact not_mem_append (not_mem_append (by decide) htitle) (by decide) h
  have hdup : notebook_contains_sha256
      (alistPut (topic_file_path cfg.topics_dir (sanitize_topic env.routeTopic "Untitled"))
        ("# " ++ sanitize_topic env.routeTopic "Untitled" ++ "\n\n") w.files)
      (topic_file_path cfg.topics_dir (sanitize_topic env.routeTopic "Untitled"))
      (env.hashOf bytes) = false := by
    unfold notebook_contains_sha256
    rw [alistGet_put_self]
    dsimp only
    unfold strContains
    rw [voice_dump_marker_data]
    exact hasSubstr_eq_false _ _ hhdr
  have hrun := c7_run_eval cfg env p1 w bytes t hfile hnp hretry heng htr htf hcodex
    hcopy hdup
  have hlast : ("# " ++ sanitize_topic env.routeTopic "Untitled" ++ "\n\n").data.getLast? =
      some '\n' := by
    rw [String.data_append,
        List.getLast?_append_of_ne_nil _ (by decide : ("\n\n" : String).data ≠ [])]
    rfl
  have hne : (("# " ++ sanitize_topic env.routeTopic "Untitled" ++ "\n\n") == "") = false := by
    cases hb : (("# " ++ sanitize_topic env.routeTopic "Untitled" ++ "\n\n") == "") with
    | false => rfl
    | true =>
      have he := eq_of_beq hb
      rw [he] at hlast
      exact absurd hlast (by decide)
  have hbl : (("# " ++ sanitize_topic env.routeTopic "Untitled" ++ "\n\n").data.getLast? ==
      some '\n') = true := by
    rw [hlast]
    rfl
  have hget2 : alistGet (topic_file_path cfg.topics_dir (sanitize_topic env.routeTopic "Untitled"))
      (alistPut (topic_file_path cfg.topics_dir (sanitize_topic env.routeTopic "Untitled"))
        ("# " ++ sanitize_topic env.routeTopic "Untitled" ++ "\n\n") w.files) =
      some ("# " ++ sanitize_topic env.routeTopic "Untitled" ++ "\n\n") :=
    alistGet_put_self _ _ _
  have happ : alistGet (topic_file_path cfg.topics_dir (sanitize_topic env.routeTopic "Untitled"))
      (append_block
        (alistPut (topic_file_path cfg.topics_dir (sanitize_topic env.routeTopic "Untitled"))
          ("# " ++ sanitize_topic env.routeTopic "Untitled" ++ "\n\n") w.files)
        (topic_file_path cfg.topics_dir (sanitize_topic env.routeTopic "Untitled"))
        (format_voice_dump_section env.ts (basename p1) env.routeMode t
          (some (env.hashOf bytes)))
        false) =
      some (("# " ++ sanitize_topic env.routeTopic "Untitled" ++ "\n\n") ++ ("" ++ "") ++
        (rstripNl (format_voice_dump_section env.ts (basename p1) env.routeMode t
          (some (env.hashOf bytes))) ++ "\n")) := by
    unfold append_block
    dsimp only
    rw [hget2]
    dsimp only
    rw [hne, if_neg Bool.false_ne_true, hbl, if_pos rfl, if_neg Bool.false_ne_true]
    exact alistGet_put_self _ _ _
  rw [hrun]
  refine ⟨⟨_, rfl⟩, ?_, ?_⟩
  · intro p2 hp2
    dsimp only at hp2
    unfold process_audio_file
    dsimp only
    rw [hp2]
    dsimp only
    rw [is_processed_mark_processed,
        if_pos (show (true && !false) = true from rfl)]
  · refine ⟨("# " ++ sanitize_topic env.routeTopic "Untitled" ++ "\n\n") ++ ("" ++ "") ++
      (rstripNl (format_voice_dump_section env.ts (basename p1) env.routeMode t
        (some (env.hashOf bytes))) ++ "\n"), ?_, ?_⟩
    · dsimp only
      exact happ
    · exact marker_count_of_doc env.ts (basename p1) env.routeMode t (env.hashOf bytes)
        (sanitize_topic env.routeTopic "Untitled") hsha hshac hts hbase hmode htrc htitle

def c7cfg : PipeCfg :=
  { topics_dir := "/topics", archive_root := "/arch", in_progress_ttl_seconds := 3600,
    codex_enabled := false }

def c7env : PipeEnv :=
  { hashOf := fun _ => "abc123", now := 100, ts := "2026-01-01 10:00",
    today := "2026-01-01", subdir := "2026/01", relArchive := "_att/2026/01/a.m4a",
    engineValid := true, transcribe := Except.ok "hello world",
    routeTopic := "Ideas", routeMode := "brainstorming", copyFails := true,
    codexResult := Except.error "unused" }

def c7world : World := { files := [("/in/a.m4a", "AUDIO")], ledger := [] }

/-- C7 witness: a concrete first run (topic `Ideas`, transcript `hello world`),
then a second invocation on the same still-present file: it is skipped with the
world unchanged, and the topic file holds exactly one marker for the ContentId. -/
theorem c7_idempotent_replay_witness :
    ((∃ o, (process_audio_file c7cfg c7env "/in/a.m4a" false c7world).1 =
        Except.ok (some o)) ∧
      process_audio_file c7cfg c7env "/in/a.m4a" false
          (process_audio_file c7cfg c7env "/in/a.m4a" false c7world).2 =
        (Except.ok none, (process_audio_file c7cfg c7env "/in/a.m4a" false c7world).2)) ∧
    (∃ doc,
      alistGet (topic_file_path c7cfg.topics_dir (sanitize_topic c7env.routeTopic "Untitled"))
        (process_audio_file c7cfg c7env "/in/a.m4a" false c7world).2.files = some doc ∧
      occCount (voice_dump_marker (c7env.hashOf "AUDIO")).data doc.data = 1) := by
  have h := c7_idempotent_replay c7cfg c7env "/in/a.m4a" c7world "AUDIO" "hello world"
    (by decide) (by decide) (by decide) (by decide) rfl (by decide) (by decide) (by decide)
    (by decide) (by decide) (by decide) (by decide) (by decide) (by decide)
  exact ⟨⟨h.1, h.2.1 "/in/a.m4a" (by decide)⟩, h.2.2⟩

end Voice2md
